import Mathlib

/-!
# Verification of the Smart Document Assistant RAG chatbot backend

A shallow embedding, over `List Char`, of the parts of the backend that the
specification makes claims about:

* `Backend/document_processor.py` — `clean_text` (the text normalizer) and
  `create_chunks` (chunk records with positional metadata);
* `Backend/rag_engine.py` — prompt assembly in `get_response`, the outbound
  prompt truncation in `call_llm_api`, and the vector-id construction in
  `store_embeddings`;
* `Backend/main.py` — the `/upload-files` validation loop, the
  `process_documents_task` background job, and the `/chat` session handling.

Python strings are modelled as `List Char`.  The regex character classes
`\s` and `\w` are modelled over their ASCII meaning (`isPySpace`,
`isPyWord`); floating-point relevance scores never influence control flow
and appear only as pre-rendered strings.  External collaborators (Pinecone,
the SentenceTransformer model, the Sarvam generation API, the filesystem)
are modelled as explicit parameters / oracles of the functions that call
them, so every function of the embedding is executable.
-/

namespace RagSpec

/-! ## Text normalizer (`document_processor.clean_text`)

`clean_text` performs three `re.sub` passes and a final `strip`:

```python
text = re.sub(r'\s+', ' ', text)
text = re.sub(r'[^\w\s\.\,\!\?\;\:\-\(\)\[\]\"\']+', '', text)
text = re.sub(r'\s+([\.!\?,;:])', r'\1', text)
return text.strip()
```
-/

/-- The ASCII whitespace characters matched by the Python regex class
`\s` (space, tab, newline, carriage return, vertical tab, form feed). -/
def isPySpace (c : Char) : Bool :=
  c = ' ' || c = '\t' || c = '\n' || c = '\r' || c = '\x0b' || c = '\x0c'

/-- The ASCII characters matched by the Python regex class `\w`
(letters, digits, underscore). -/
def isPyWord (c : Char) : Bool :=
  c.isAlphanum || c = '_'

/-- The punctuation whitelist of the second `re.sub` of `clean_text`:
`. , ! ? ; : - ( ) [ ] " '`. -/
def punctKeep : List Char :=
  ['.', ',', '!', '?', ';', ':', '-', '(', ')', '[', ']', '"', '\x27']

/-- A character survives the whitelist pass
`re.sub(r'[^\w\s\.\,\!\?\;\:\-\(\)\[\]\"\']+', '', text)`. -/
def keepChar (c : Char) : Bool :=
  isPyWord c || isPySpace c || punctKeep.contains c

/-- First pass of `clean_text`: `re.sub(r'\s+', ' ', text)` — every maximal
run of whitespace becomes a single space. -/
def collapseWS : List Char → List Char
  | [] => []
  | c :: cs =>
    if isPySpace c then
      match cs with
      | [] => [' ']
      | d :: _ => if isPySpace d then collapseWS cs else ' ' :: collapseWS cs
    else c :: collapseWS cs

/-- Second pass of `clean_text`: deleting every character outside the
whitelist (replacing each maximal run of removed characters by the empty
string is the same as filtering characters). -/
def removeSpecial (l : List Char) : List Char :=
  l.filter keepChar

/-- The punctuation class of the third `re.sub` of `clean_text`:
`[\.!\?,;:]`. -/
def punctTight : List Char :=
  ['.', '!', '?', ',', ';', ':']

/-- Does the string consist of zero or more whitespace characters followed
by a `punctTight` character?  Used to decide whether a whitespace character
belongs to a run that the third `re.sub` deletes. -/
def spacesThenPunct : List Char → Bool
  | [] => false
  | c :: cs => if isPySpace c then spacesThenPunct cs else punctTight.contains c

/-- Third pass of `clean_text`: `re.sub(r'\s+([\.!\?,;:])', r'\1', text)` —
a whitespace character is deleted exactly when the remainder of its
whitespace run is followed by a `punctTight` character. -/
def fixPunct : List Char → List Char
  | [] => []
  | c :: cs =>
    if isPySpace c && spacesThenPunct (c :: cs) then fixPunct cs
    else c :: fixPunct cs

/-- Python `str.strip()`: remove leading and trailing whitespace. -/
def stripEnds (l : List Char) : List Char :=
  ((l.dropWhile isPySpace).reverse.dropWhile isPySpace).reverse

/-- `DocumentProcessor.clean_text`: the three regex passes followed by
`strip`. -/
def clean_text (t : List Char) : List Char :=
  stripEnds (fixPunct (removeSpecial (collapseWS t)))

example : clean_text "a   b.".toList = "a b.".toList := by decide
example : clean_text "  x . y  ".toList = "x. y".toList := by decide
example : clean_text "a # b".toList = "a  b".toList := by decide
example : clean_text (clean_text "a # b".toList) = "a b".toList := by decide

/-! ### Adjacent-pair predicates for the normalizer proofs -/

/-- `pairsOK R l` holds when every pair of adjacent characters of `l`
satisfies `R`. -/
def pairsOK (R : Char → Char → Bool) : List Char → Bool
  | [] => true
  | [_] => true
  | a :: b :: rest => R a b && pairsOK R (b :: rest)

/-- No two adjacent whitespace characters. -/
def spaceApart (a b : Char) : Bool :=
  !(isPySpace a && isPySpace b)

/-- A whitespace character is never followed by whitespace or by a
`punctTight` character. -/
def tidyR (a b : Char) : Bool :=
  !(isPySpace a && (isPySpace b || punctTight.contains b))

theorem pairsOK_tail {R : Char → Char → Bool} {c : Char} {cs : List Char}
    (h : pairsOK R (c :: cs) = true) : pairsOK R cs = true := by
  cases cs with
  | nil => rfl
  | cons d ds =>
    simp only [pairsOK, Bool.and_eq_true] at h
    exact h.2

theorem pairsOK_rel {R : Char → Char → Bool} {a b : Char} {cs : List Char}
    (h : pairsOK R (a :: b :: cs) = true) : R a b = true := by
  simp only [pairsOK, Bool.and_eq_true] at h
  exact h.1

theorem pairsOK_mono {R S : Char → Char → Bool}
    (hRS : ∀ a b, R a b = true → S a b = true) :
    ∀ {l : List Char}, pairsOK R l = true → pairsOK S l = true
  | [], _ => rfl
  | [_], _ => rfl
  | a :: b :: rest, h => by
    simp only [pairsOK, Bool.and_eq_true] at h ⊢
    exact ⟨hRS a b h.1, pairsOK_mono hRS h.2⟩

theorem pairsOK_iff_adj {R : Char → Char → Bool} {l : List Char} :
    pairsOK R l = true ↔ ∀ a b : Char, [a, b] <:+: l → R a b = true := by
  induction l with
  | nil =>
    simp only [pairsOK, true_iff]
    intro a b h
    have := h.length_le
    simp at this
  | cons c cs ih =>
    constructor
    · intro h a b hinf
      rcases List.infix_cons_iff.mp hinf with hpre | hinf2
      · obtain ⟨t, ht⟩ := hpre
        cases cs with
        | nil => simp at ht
        | cons d ds =>
          have ha : a = c := by injection ht
          have hb : b = d := by
            have := ht
            injection this with h1 h2
            injection h2
          subst ha; subst hb
          exact pairsOK_rel h
      · exact ih.mp (pairsOK_tail h) a b hinf2
    · intro h
      cases cs with
      | nil => rfl
      | cons d ds =>
        simp only [pairsOK, Bool.and_eq_true]
        refine ⟨h c d ⟨[], ds, rfl⟩, ih.mpr ?_⟩
        intro a b hinf
        exact h a b (hinf.trans ⟨[c], [], by simp⟩)

theorem pairsOK_of_within {R : Char → Char → Bool} {l m : List Char}
    (hm : m <:+: l) (h : pairsOK R l = true) : pairsOK R m = true :=
  pairsOK_iff_adj.mpr fun a b hab => pairsOK_iff_adj.mp h a b (hab.trans hm)

/-! ### Properties established by `collapseWS` -/

theorem collapseWS_single_space {a : Char} (ha : isPySpace a = true) :
    collapseWS [a] = [' '] := by
  simp [collapseWS, ha]

theorem collapseWS_space_space {a d : Char} {ds : List Char}
    (ha : isPySpace a = true) (hd : isPySpace d = true) :
    collapseWS (a :: d :: ds) = collapseWS (d :: ds) := by
  simp [collapseWS, ha, hd]

theorem collapseWS_space_nonspace {a d : Char} {ds : List Char}
    (ha : isPySpace a = true) (hd : isPySpace d = false) :
    collapseWS (a :: d :: ds) = ' ' :: collapseWS (d :: ds) := by
  simp [collapseWS, ha, hd]

theorem collapseWS_head_nonspace {a : Char} {as : List Char}
    (ha : isPySpace a = false) :
    collapseWS (a :: as) = a :: collapseWS as := by
  cases as <;> simp [collapseWS, ha]

theorem collapseWS_mem {l : List Char} {c : Char} (h : c ∈ collapseWS l) :
    c ∈ l ∨ c = ' ' := by
  induction l with
  | nil => simp [collapseWS] at h
  | cons a as ih =>
    cases ha : isPySpace a with
    | true =>
      cases as with
      | nil =>
        rw [collapseWS_single_space ha] at h
        simp at h
        exact Or.inr h
      | cons d ds =>
        cases hd : isPySpace d with
        | true =>
          rw [collapseWS_space_space ha hd] at h
          rcases ih h with h1 | h2
          · exact Or.inl (List.mem_cons_of_mem _ h1)
          · exact Or.inr h2
        | false =>
          rw [collapseWS_space_nonspace ha hd] at h
          rcases List.mem_cons.mp h with h1 | h2
          · exact Or.inr h1
          · rcases ih h2 with h3 | h4
            · exact Or.inl (List.mem_cons_of_mem _ h3)
            · exact Or.inr h4
    | false =>
      rw [collapseWS_head_nonspace ha] at h
      rcases List.mem_cons.mp h with h1 | h2
      · exact Or.inl (h1 ▸ List.mem_cons_self _ _)
      · rcases ih h2 with h3 | h4
        · exact Or.inl (List.mem_cons_of_mem _ h3)
        · exact Or.inr h4

theorem collapseWS_space_eq {l : List Char} {c : Char} (h : c ∈ collapseWS l)
    (hsp : isPySpace c = true) : c = ' ' := by
  induction l with
  | nil => simp [collapseWS] at h
  | cons a as ih =>
    cases ha : isPySpace a with
    | true =>
      cases as with
      | nil =>
        rw [collapseWS_single_space ha] at h
        simpa using h
      | cons d ds =>
        cases hd : isPySpace d with
        | true =>
          rw [collapseWS_space_space ha hd] at h
          exact ih h
        | false =>
          rw [collapseWS_space_nonspace ha hd] at h
          rcases List.mem_cons.mp h with h1 | h2
          · exact h1
          · exact ih h2
    | false =>
      rw [collapseWS_head_nonspace ha] at h
      rcases List.mem_cons.mp h with h1 | h2
      · subst h1; rw [ha] at hsp; exact absurd hsp (by simp)
      · exact ih h2

theorem collapseWS_noRun (l : List Char) :
    pairsOK spaceApart (collapseWS l) = true := by
  induction l with
  | nil => rfl
  | cons a as ih =>
    cases ha : isPySpace a with
    | true =>
      cases as with
      | nil => rw [collapseWS_single_space ha]; rfl
      | cons d ds =>
        cases hd : isPySpace d with
        | true => rw [collapseWS_space_space ha hd]; exact ih
        | false =>
          rw [collapseWS_space_nonspace ha hd]
          rw [collapseWS_head_nonspace hd] at ih ⊢
          simp only [pairsOK, Bool.and_eq_true]
          exact ⟨by simp [spaceApart, hd], ih⟩
    | false =>
      rw [collapseWS_head_nonspace ha]
      cases hcs : collapseWS as with
      | nil => rfl
      | cons e es =>
        rw [hcs] at ih
        simp only [pairsOK, Bool.and_eq_true]
        exact ⟨by simp [spaceApart, ha], ih⟩

theorem collapseWS_eq_self {l : List Char}
    (hsp : ∀ c ∈ l, isPySpace c = true → c = ' ')
    (hnr : pairsOK spaceApart l = true) : collapseWS l = l := by
  induction l with
  | nil => rfl
  | cons a as ih =>
    cases ha : isPySpace a with
    | true =>
      have ha' : a = ' ' := hsp a (List.mem_cons_self _ _) ha
      cases as with
      | nil => rw [collapseWS_single_space ha, ha']
      | cons d ds =>
        have hd : isPySpace d = false := by
          have hrel := pairsOK_rel hnr
          simp only [spaceApart, ha, Bool.not_eq_true', Bool.true_and] at hrel
          exact hrel
        rw [collapseWS_space_nonspace ha hd,
          ih (fun c hc h => hsp c (List.mem_cons_of_mem _ hc) h) (pairsOK_tail hnr),
          ha']
    | false =>
      rw [collapseWS_head_nonspace ha,
        ih (fun c hc h => hsp c (List.mem_cons_of_mem _ hc) h) (pairsOK_tail hnr)]

/-! ### Properties established by `fixPunct` -/

theorem fixPunct_cons_nonspace {d : Char} {ds : List Char}
    (hd : isPySpace d = false) : fixPunct (d :: ds) = d :: fixPunct ds := by
  simp [fixPunct, hd]

theorem fixPunct_sublist (l : List Char) : List.Sublist (fixPunct l) l := by
  induction l with
  | nil => exact List.Sublist.refl _
  | cons c cs ih =>
    by_cases h : (isPySpace c && spacesThenPunct (c :: cs)) = true
    · rw [show fixPunct (c :: cs) = fixPunct cs by simp [fixPunct, h]]
      exact ih.cons c
    · rw [show fixPunct (c :: cs) = c :: fixPunct cs by simp [fixPunct, h]]
      exact ih.cons₂ c

theorem fixPunct_tidy {l : List Char} (hnr : pairsOK spaceApart l = true) :
    pairsOK tidyR (fixPunct l) = true := by
  induction l with
  | nil => rfl
  | cons c cs ih =>
    by_cases h : (isPySpace c && spacesThenPunct (c :: cs)) = true
    · rw [show fixPunct (c :: cs) = fixPunct cs by simp [fixPunct, h]]
      exact ih (pairsOK_tail hnr)
    · rw [show fixPunct (c :: cs) = c :: fixPunct cs by simp [fixPunct, h]]
      have htail := ih (pairsOK_tail hnr)
      cases hc : isPySpace c with
      | false =>
        cases hfix : fixPunct cs with
        | nil => rfl
        | cons e es =>
          rw [hfix] at htail
          simp only [pairsOK, Bool.and_eq_true]
          exact ⟨by simp [tidyR, hc], htail⟩
      | true =>
        have hstp : spacesThenPunct (c :: cs) = false := by
          cases hv : spacesThenPunct (c :: cs) with
          | false => rfl
          | true => exact absurd (by rw [hc, hv]; rfl) h
        rw [show spacesThenPunct (c :: cs) = spacesThenPunct cs by
          simp [spacesThenPunct, hc]] at hstp
        cases cs with
        | nil => rfl
        | cons d ds =>
          have hd : isPySpace d = false := by
            have hrel := pairsOK_rel hnr
            simp only [spaceApart, hc, Bool.not_eq_true', Bool.true_and] at hrel
            exact hrel
          have hdp : punctTight.contains d = false := by
            rw [show spacesThenPunct (d :: ds) = punctTight.contains d by
              simp [spacesThenPunct, hd]] at hstp
            exact hstp
          rw [fixPunct_cons_nonspace hd] at htail ⊢
          simp only [pairsOK, Bool.and_eq_true]
          refine ⟨?_, htail⟩
          unfold tidyR
          rw [hd, hdp]
          simp

theorem fixPunct_eq_self {l : List Char} (h : pairsOK tidyR l = true) :
    fixPunct l = l := by
  induction l with
  | nil => rfl
  | cons c cs ih =>
    have hcond : (isPySpace c && spacesThenPunct (c :: cs)) = false := by
      cases hc : isPySpace c with
      | false => rfl
      | true =>
        rw [show spacesThenPunct (c :: cs) = spacesThenPunct cs by
          simp [spacesThenPunct, hc]]
        cases cs with
        | nil => rfl
        | cons d ds =>
          have hrel := pairsOK_rel h
          simp only [tidyR, hc, Bool.true_and, Bool.not_eq_true', Bool.or_eq_false_iff]
            at hrel
          rw [show spacesThenPunct (d :: ds) = punctTight.contains d by
            simp [spacesThenPunct, hrel.1]]
          rw [hrel.2]
          rfl
    rw [show fixPunct (c :: cs) = c :: fixPunct cs by simp [fixPunct, hcond],
      ih (pairsOK_tail h)]

/-! ### Properties of `stripEnds` -/

theorem dropWhile_head_false {p : Char → Bool} {l : List Char} {a : Char}
    (h : (l.dropWhile p).head? = some a) : p a = false := by
  induction l with
  | nil => simp [List.dropWhile] at h
  | cons c cs ih =>
    by_cases hc : p c = true
    · rw [List.dropWhile_cons_of_pos hc] at h
      exact ih h
    · rw [List.dropWhile_cons_of_neg hc] at h
      simp only [List.head?_cons, Option.some.injEq] at h
      subst h
      simpa using hc

theorem dropWhile_eq_self_of_head {p : Char → Bool} {l : List Char}
    (h : ∀ a, l.head? = some a → p a = false) : l.dropWhile p = l := by
  cases l with
  | nil => rfl
  | cons c cs =>
    exact List.dropWhile_cons_of_neg (by simp [h c rfl])

theorem getLast?_dropWhile {p : Char → Bool} (l : List Char) :
    l.dropWhile p = [] ∨ (l.dropWhile p).getLast? = l.getLast? := by
  induction l with
  | nil => exact Or.inl rfl
  | cons c cs ih =>
    by_cases hc : p c = true
    · rw [List.dropWhile_cons_of_pos hc]
      rcases ih with h1 | h2
      · exact Or.inl h1
      · rcases hcs : cs.dropWhile p with _ | ⟨e, es⟩
        · exact Or.inl rfl
        · right
          rw [hcs] at h2
          rw [h2]
          have hne : cs ≠ [] := by
            intro hnil
            rw [hnil] at hcs
            simp [List.dropWhile] at hcs
          cases cs with
          | nil => exact absurd rfl hne
          | cons d ds => simp [List.getLast?_cons_cons]
    · rw [List.dropWhile_cons_of_neg hc]
      exact Or.inr rfl

/-- `stripEnds l` is a contiguous substring of `l`. -/
theorem stripEnds_within (l : List Char) : stripEnds l <:+: l := by
  unfold stripEnds
  have h1 : (l.dropWhile isPySpace) <:+ l := List.dropWhile_suffix _
  have h2 : ((l.dropWhile isPySpace).reverse.dropWhile isPySpace) <:+
      (l.dropWhile isPySpace).reverse := List.dropWhile_suffix _
  have h3 : ((l.dropWhile isPySpace).reverse.dropWhile isPySpace).reverse <+:
      (l.dropWhile isPySpace) := by
    have h4 := List.reverse_prefix.mpr h2
    rwa [List.reverse_reverse] at h4
  exact h3.isInfix.trans h1.isInfix

theorem stripEnds_head? {l : List Char} {a : Char}
    (h : (stripEnds l).head? = some a) : isPySpace a = false := by
  unfold stripEnds at h
  rw [List.head?_reverse] at h
  rcases getLast?_dropWhile (p := isPySpace) (l.dropWhile isPySpace).reverse with
    h1 | h2
  · rw [h1] at h
    simp at h
  · rw [h2, List.getLast?_reverse] at h
    exact dropWhile_head_false h

theorem stripEnds_getLast? {l : List Char} {a : Char}
    (h : (stripEnds l).getLast? = some a) : isPySpace a = false := by
  unfold stripEnds at h
  rw [List.getLast?_reverse] at h
  exact dropWhile_head_false h

theorem stripEnds_eq_self {l : List Char}
    (hh : ∀ a, l.head? = some a → isPySpace a = false)
    (hl : ∀ a, l.getLast? = some a → isPySpace a = false) : stripEnds l = l := by
  unfold stripEnds
  rw [dropWhile_eq_self_of_head hh]
  have hrev : ∀ a, l.reverse.head? = some a → isPySpace a = false := by
    intro a ha
    rw [List.head?_reverse] at ha
    exact hl a ha
  rw [dropWhile_eq_self_of_head hrev, List.reverse_reverse]

theorem tidyR_imp_spaceApart (a b : Char) (h : tidyR a b = true) :
    spaceApart a b = true := by
  unfold tidyR at h
  unfold spaceApart
  cases ha : isPySpace a <;> cases hb : isPySpace b <;> simp_all

/-- Idempotence of the normalizer on inputs every character of which
survives the whitelist pass.  (On general inputs idempotence fails: the
whitelist pass can merge two whitespace runs into one longer run, which
only a second application of the first pass collapses.) -/
theorem clean_text_idem_on_whitelist (x : List Char)
    (hx : ∀ c ∈ x, keepChar c = true) :
    clean_text (clean_text x) = clean_text x := by
  have hAkeep : ∀ c ∈ collapseWS x, keepChar c = true := by
    intro c hc
    rcases collapseWS_mem hc with h1 | h2
    · exact hx c h1
    · subst h2; decide
  have hRS : removeSpecial (collapseWS x) = collapseWS x :=
    List.filter_eq_self.mpr hAkeep
  have hcx : clean_text x = stripEnds (fixPunct (collapseWS x)) := by
    unfold clean_text
    rw [hRS]
  have hWtidy : pairsOK tidyR (fixPunct (collapseWS x)) = true :=
    fixPunct_tidy (collapseWS_noRun x)
  have hyWithin : stripEnds (fixPunct (collapseWS x)) <:+: fixPunct (collapseWS x) :=
    stripEnds_within _
  have hytidy : pairsOK tidyR (stripEnds (fixPunct (collapseWS x))) = true :=
    pairsOK_of_within hyWithin hWtidy
  have hymem : ∀ c ∈ stripEnds (fixPunct (collapseWS x)), c ∈ collapseWS x := by
    intro c hc
    exact (fixPunct_sublist _).subset (hyWithin.sublist.subset hc)
  have hysp : ∀ c ∈ stripEnds (fixPunct (collapseWS x)),
      isPySpace c = true → c = ' ' :=
    fun c hc h => collapseWS_space_eq (hymem c hc) h
  have hykeep : ∀ c ∈ stripEnds (fixPunct (collapseWS x)), keepChar c = true :=
    fun c hc => hAkeep c (hymem c hc)
  have hynr : pairsOK spaceApart (stripEnds (fixPunct (collapseWS x))) = true :=
    pairsOK_mono tidyR_imp_spaceApart hytidy
  rw [hcx]
  unfold clean_text
  unfold removeSpecial
  rw [collapseWS_eq_self hysp hynr, List.filter_eq_self.mpr hykeep,
    fixPunct_eq_self hytidy]
  exact stripEnds_eq_self (fun a ha => stripEnds_head? ha)
    (fun a ha => stripEnds_getLast? ha)

/-- C5 (counterexample): the text normalizer is not idempotent.  On the
input `"a # b"` the whitelist pass deletes the `#` and leaves the two
spaces that surrounded it adjacent, so `clean_text` returns `"a  b"`,
while a second application collapses the double space to `"a b"`. -/
theorem C5_clean_text_not_idempotent :
    clean_text (clean_text ("a # b".toList)) ≠ clean_text ("a # b".toList) := by
  decide

/-- C5 (amended): the text normalizer is idempotent on every input whose
characters all survive the whitelist pass (word characters, whitespace and
the kept punctuation).  In general idempotence fails only because deleting
non-whitelisted characters can merge two whitespace runs. -/
theorem C5_clean_text_idempotent_on_whitelist (x : List Char)
    (hx : ∀ c ∈ x, keepChar c = true) :
    clean_text (clean_text x) = clean_text x :=
  clean_text_idem_on_whitelist x hx

/-- Witness for `C5_clean_text_idempotent_on_whitelist` at a concrete
input. -/
theorem C5_clean_text_idempotent_on_whitelist_witness :
    (∀ c ∈ ("Hello, world!".toList), keepChar c = true) ∧
      clean_text (clean_text ("Hello, world!".toList)) =
        clean_text ("Hello, world!".toList) :=
  ⟨by decide, C5_clean_text_idempotent_on_whitelist _ (by decide)⟩

/-! ## Chunker (`document_processor.create_chunks`)

`DocumentProcessor.__init__` fixes `chunk_size = 1500` and
`chunk_overlap = 300` and builds a `RecursiveCharacterTextSplitter` with
separators `["\n\n", "\n", ". ", " ", ""]`.  `create_chunks` runs
`split_text` and wraps each produced string in a chunk object with
metadata `{source, chunk_id, total_chunks, char_count}` (two-pass: split
first, then annotate with the position and the final count).
-/

/-- `chunk_size` default of `DocumentProcessor.__init__`. -/
def chunkSize : ℕ := 1500

/-- `chunk_overlap` default of `DocumentProcessor.__init__`. -/
def chunkOverlap : ℕ := 300

/-- The separator preference list handed to the splitter. -/
def separators : List (List Char) :=
  ["\n\n".toList, "\n".toList, ". ".toList, " ".toList, []]

/-- First occurrence of `sep` in a string: the part before it and the part
after it, or `none` when `sep` does not occur. -/
def splitFirst (sep : List Char) : List Char → Option (List Char × List Char)
  | [] => none
  | c :: cs =>
    if sep.isPrefixOf (c :: cs) then some ([], (c :: cs).drop sep.length)
    else
      match splitFirst sep cs with
      | none => none
      | some (a, b) => some (c :: a, b)

theorem splitFirst_length {sep l a b : List Char} (hsep : sep ≠ [])
    (h : splitFirst sep l = some (a, b)) : b.length < l.length := by
  induction l generalizing a b with
  | nil => simp [splitFirst] at h
  | cons c cs ih =>
    by_cases hp : sep.isPrefixOf (c :: cs) = true
    · rw [show splitFirst sep (c :: cs) = some ([], (c :: cs).drop sep.length) by
        simp [splitFirst, hp]] at h
      injection h with h1
      injection h1 with _ h2
      subst h2
      have h3 : 1 ≤ sep.length := by
        cases sep with
        | nil => exact absurd rfl hsep
        | cons s ss => simp
      calc ((c :: cs).drop sep.length).length = (c :: cs).length - sep.length := by
            simp
        _ < (c :: cs).length := by simp; omega
    · rw [show splitFirst sep (c :: cs) =
          (match splitFirst sep cs with
            | none => none
            | some (a, b) => some (c :: a, b)) by simp [splitFirst, hp]] at h
      cases hm : splitFirst sep cs with
      | none => rw [hm] at h; exact absurd h (by simp)
      | some p =>
        obtain ⟨a0, b0⟩ := p
        rw [hm] at h
        simp only [Option.some.injEq, Prod.mk.injEq] at h
        have hb : b0 = b := h.2
        subst hb
        calc b0.length < cs.length := ih hm
          _ < (c :: cs).length := by simp

/-- Split a string at every occurrence of `sep`, dropping the separator;
the empty separator means a character-level split. -/
def splitOnSep (sep : List Char) (text : List Char) : List (List Char) :=
  if hsep : sep = [] then text.map (fun c => [c])
  else
    match hm : splitFirst sep text with
    | none => [text]
    | some (a, b) => a :: splitOnSep sep b
termination_by text.length
decreasing_by exact splitFirst_length hsep hm

/-- Modelled from the spec: the recursive-separator splitting pass of
langchain's `RecursiveCharacterTextSplitter.split_text` — a dependency
whose code is not part of this repository.  Following the specification:
split on the coarsest separator of the preference list and recurse with
the next separator into any produced segment still exceeding
`chunk_size`; if the text cannot be split below `chunk_size` even with
the finest separator, the oversized segment is emitted as-is. -/
def splitPieces : List (List Char) → List Char → List (List Char)
  | [], text => [text]
  | sep :: rest, text =>
    (splitOnSep sep text).flatMap fun piece =>
      if piece.length ≤ chunkSize then [piece] else splitPieces rest piece

/-- Modelled from the spec: the reassembly pass — each chunk after the
first begins with the trailing `chunk_overlap` characters of the previous
chunk's content. -/
def addOverlap : List Char → List (List Char) → List (List Char)
  | _, [] => []
  | prev, q :: qs =>
    let q2 := prev.drop (prev.length - chunkOverlap) ++ q
    q2 :: addOverlap q2 qs

/-- Modelled from the spec: `RecursiveCharacterTextSplitter.split_text`
(not part of this repository).  A document whose length does not exceed
`chunk_size` yields exactly one chunk; longer documents are split
recursively and reassembled with overlap. -/
def split_text (text : List Char) : List (List Char) :=
  if text.length ≤ chunkSize then [text]
  else
    match splitPieces separators text with
    | [] => []
    | p :: ps => p :: addOverlap p ps

/-- A chunk record as built by `create_chunks`: the chunk text plus the
metadata dictionary `{source, chunk_id, total_chunks, char_count}`. -/
structure Chunk where
  text : List Char
  source : List Char
  chunk_id : ℕ
  total_chunks : ℕ
  char_count : ℕ
deriving DecidableEq

/-- `DocumentProcessor.create_chunks`: run the splitter, then annotate
each produced string with its position and the total count. -/
def create_chunks (text source_file : List Char) : List Chunk :=
  let chunks := split_text text
  chunks.enum.map fun p =>
    { text := p.2
      source := source_file
      chunk_id := p.1
      total_chunks := chunks.length
      char_count := p.2.length }

/-! ### The normalizer never lengthens its input -/

theorem collapseWS_length_le (l : List Char) :
    (collapseWS l).length ≤ l.length := by
  induction l with
  | nil => exact Nat.le_refl _
  | cons a as ih =>
    cases ha : isPySpace a with
    | true =>
      cases as with
      | nil => rw [collapseWS_single_space ha]; exact Nat.le_refl _
      | cons d ds =>
        cases hd : isPySpace d with
        | true =>
          rw [collapseWS_space_space ha hd]
          exact Nat.le_trans ih (Nat.le_succ _)
        | false =>
          rw [collapseWS_space_nonspace ha hd]
          simpa using ih
    | false =>
      rw [collapseWS_head_nonspace ha]
      simpa using ih

theorem clean_text_length_le (t : List Char) :
    (clean_text t).length ≤ t.length := by
  unfold clean_text
  calc (stripEnds (fixPunct (removeSpecial (collapseWS t)))).length
      ≤ (fixPunct (removeSpecial (collapseWS t))).length :=
        (stripEnds_within _).sublist.length_le
    _ ≤ (removeSpecial (collapseWS t)).length := (fixPunct_sublist _).length_le
    _ ≤ (collapseWS t).length := List.length_filter_le _ _
    _ ≤ t.length := collapseWS_length_le t

/-- C6: chunking a normalized input of length at most `chunk_size`
(default 1500) yields exactly one chunk whose text is the normalized
input, with `chunk_id` 0 and `total_chunks` 1.  The splitter itself is
modelled from the specification (langchain dependency, not in this
repository); the metadata annotation is the code of `create_chunks`. -/
theorem C6_short_text_yields_single_chunk (x src : List Char)
    (h : x.length ≤ chunkSize) :
    create_chunks (clean_text x) src =
      [{ text := clean_text x
         source := src
         chunk_id := 0
         total_chunks := 1
         char_count := (clean_text x).length }] := by
  have hlen : (clean_text x).length ≤ chunkSize :=
    Nat.le_trans (clean_text_length_le x) h
  unfold create_chunks split_text
  rw [if_pos hlen]
  simp [List.enum]

/-- Witness for `C6_short_text_yields_single_chunk` at a concrete
input. -/
theorem C6_short_text_yields_single_chunk_witness :
    ("An example document. It has two sentences.".toList.length ≤ chunkSize) ∧
      create_chunks (clean_text ("An example document. It has two sentences.".toList))
          ("doc.pdf".toList) =
        [{ text := clean_text ("An example document. It has two sentences.".toList)
           source := "doc.pdf".toList
           chunk_id := 0
           total_chunks := 1
           char_count := (clean_text ("An example document. It has two sentences.".toList)).length }] :=
  ⟨by decide, C6_short_text_yields_single_chunk _ _ (by decide)⟩

/-! ## Vector records (`rag_engine.store_embeddings`)

```python
for idx, (chunk, embedding) in enumerate(zip(chunks, embeddings)):
    vector_id = f"{job_id}_{chunk['metadata']['source']}_{idx}"
    vectors.append({"id": vector_id, "values": embedding,
                    "metadata": {"text": chunk["text"],
                                 "source": chunk["metadata"]["source"],
                                 "chunk_id": chunk["metadata"]["chunk_id"],
                                 "job_id": job_id}})
```

The embedding vectors come from the external SentenceTransformer model and
are passed in as an opaque list; the batched `upsert` writes exactly the
records of `vectors`, so the list of records is the model of what is
written to the index. -/

/-- Least-significant-first decimal digits of `n`, with explicit fuel so
that the definition is structural (any fuel above `n` is enough). -/
def toDigitsRev (fuel n : ℕ) : List Char :=
  match fuel with
  | 0 => []
  | f + 1 =>
    if n < 10 then [Nat.digitChar n]
    else Nat.digitChar (n % 10) :: toDigitsRev f (n / 10)

/-- Decimal rendering of a natural number, as Python `str(int)` produces
for the f-string interpolation of `idx`. -/
def natRepr (n : ℕ) : List Char :=
  (toDigitsRev (n + 1) n).reverse

/-- The vector id `f"{job_id}_{source}_{idx}"`. -/
def mkVectorId (jobId source : List Char) (idx : ℕ) : List Char :=
  jobId ++ '_' :: (source ++ '_' :: natRepr idx)

/-- One record upserted into the vector index. -/
structure VecRecord (α : Type) where
  id : List Char
  values : α
  text : List Char
  source : List Char
  chunk_id : ℕ
  job_id : List Char
deriving DecidableEq

/-- `RAGEngine.store_embeddings`: the list of records prepared for upsert
from the chunk list and the embedding list (`zip` + `enumerate`). -/
def store_embeddings {α : Type} (chunks : List Chunk) (embeddings : List α)
    (job_id : List Char) : List (VecRecord α) :=
  (chunks.zip embeddings).enum.map fun p =>
    { id := mkVectorId job_id p.2.1.source p.1
      values := p.2.2
      text := p.2.1.text
      source := p.2.1.source
      chunk_id := p.2.1.chunk_id
      job_id := job_id }

/-! ### Injectivity of the id rendering -/

/-- Value of a least-significant-first decimal digit-character list. -/
def revVal : List Char → ℕ
  | [] => 0
  | c :: cs => (c.toNat - 48) + 10 * revVal cs

theorem revVal_toDigitsRev : ∀ fuel n, n < fuel →
    revVal (toDigitsRev fuel n) = n := by
  intro fuel
  induction fuel with
  | zero => intro n h; omega
  | succ f ih =>
    intro n h
    by_cases h10 : n < 10
    · rw [show toDigitsRev (f + 1) n = [Nat.digitChar n] by
        simp [toDigitsRev, h10]]
      have hv : ∀ d, d < 10 → (Nat.digitChar d).toNat - 48 = d := by decide
      simp [revVal, hv n h10]
    · rw [show toDigitsRev (f + 1) n =
          Nat.digitChar (n % 10) :: toDigitsRev f (n / 10) by
        simp [toDigitsRev, h10]]
      have hdiv : n / 10 < f := by
        have h1 : n / 10 < n := Nat.div_lt_self (by omega) (by omega)
        omega
      have hv : ∀ d, d < 10 → (Nat.digitChar d).toNat - 48 = d := by decide
      simp only [revVal, ih (n / 10) hdiv, hv (n % 10) (Nat.mod_lt n (by omega))]
      omega

theorem natRepr_inj {m n : ℕ} (h : natRepr m = natRepr n) : m = n := by
  unfold natRepr at h
  have h2 : toDigitsRev (m + 1) m = toDigitsRev (n + 1) n := by
    have h3 := congrArg List.reverse h
    simpa using h3
  calc m = revVal (toDigitsRev (m + 1) m) :=
        (revVal_toDigitsRev (m + 1) m (Nat.lt_succ_self m)).symm
    _ = revVal (toDigitsRev (n + 1) n) := by rw [h2]
    _ = n := revVal_toDigitsRev (n + 1) n (Nat.lt_succ_self n)

theorem toDigitsRev_mem {fuel n : ℕ} {c : Char} (h : c ∈ toDigitsRev fuel n) :
    ∃ d, d < 10 ∧ c = Nat.digitChar d := by
  induction fuel generalizing n with
  | zero => simp [toDigitsRev] at h
  | succ f ih =>
    by_cases h10 : n < 10
    · rw [show toDigitsRev (f + 1) n = [Nat.digitChar n] by
        simp [toDigitsRev, h10]] at h
      simp only [List.mem_singleton] at h
      exact ⟨n, h10, h⟩
    · rw [show toDigitsRev (f + 1) n =
          Nat.digitChar (n % 10) :: toDigitsRev f (n / 10) by
        simp [toDigitsRev, h10]] at h
      rcases List.mem_cons.mp h with h1 | h2
      · exact ⟨n % 10, Nat.mod_lt n (by omega), h1⟩
      · exact ih h2

theorem natRepr_no_underscore (n : ℕ) : '_' ∉ natRepr n := by
  unfold natRepr
  intro hmem
  rw [List.mem_reverse] at hmem
  obtain ⟨d, hd, hc⟩ := toDigitsRev_mem hmem
  have hne : ∀ e, e < 10 → Nat.digitChar e ≠ '_' := by decide
  exact hne d hd hc.symm

theorem underscore_head_eq {u₁ u₂ v₁ v₂ : List Char}
    (h₁ : '_' ∉ u₁) (h₂ : '_' ∉ u₂)
    (h : u₁ ++ '_' :: v₁ = u₂ ++ '_' :: v₂) : u₁ = u₂ ∧ v₁ = v₂ := by
  induction u₁ generalizing u₂ with
  | nil =>
    cases u₂ with
    | nil =>
      simp only [List.nil_append, List.cons.injEq] at h
      exact ⟨rfl, h.2⟩
    | cons c cs =>
      simp only [List.nil_append, List.cons_append, List.cons.injEq] at h
      exact absurd (h.1 ▸ List.mem_cons_self c cs) h₂
  | cons a as ih =>
    cases u₂ with
    | nil =>
      simp only [List.cons_append, List.nil_append, List.cons.injEq] at h
      exact absurd (h.1.symm ▸ List.mem_cons_self a as) h₁
    | cons c cs =>
      simp only [List.cons_append, List.cons.injEq] at h
      have hrec := ih (fun hm => h₁ (List.mem_cons_of_mem _ hm))
        (fun hm => h₂ (List.mem_cons_of_mem _ hm)) h.2
      exact ⟨by rw [h.1, hrec.1], hrec.2⟩

theorem underscore_last_eq {s₁ s₂ t₁ t₂ : List Char}
    (h₁ : '_' ∉ t₁) (h₂ : '_' ∉ t₂)
    (h : s₁ ++ '_' :: t₁ = s₂ ++ '_' :: t₂) : t₁ = t₂ := by
  have hrev := congrArg List.reverse h
  simp only [List.reverse_append, List.reverse_cons] at hrev
  rw [List.append_assoc, List.append_assoc, List.singleton_append,
    List.singleton_append] at hrev
  have h3 := underscore_head_eq (by simpa using h₁) (by simpa using h₂) hrev
  have h4 := congrArg List.reverse h3.1
  simpa using h4

theorem mkVectorId_inj_idx {jobId s₁ s₂ : List Char} {i₁ i₂ : ℕ}
    (h : mkVectorId jobId s₁ i₁ = mkVectorId jobId s₂ i₂) : i₁ = i₂ := by
  unfold mkVectorId at h
  have h1 : '_' :: (s₁ ++ '_' :: natRepr i₁) = '_' :: (s₂ ++ '_' :: natRepr i₂) :=
    List.append_cancel_left h
  have h2 : s₁ ++ '_' :: natRepr i₁ = s₂ ++ '_' :: natRepr i₂ := by
    injection h1
  exact natRepr_inj
    (underscore_last_eq (natRepr_no_underscore i₁) (natRepr_no_underscore i₂) h2)

/-- C8 (counterexample): the vector id is NOT derived from the chunk's
index within its source document.  With two chunks of source `a` followed
by one chunk of source `b` (whose within-source `chunk_id` is 0), the
third record receives id `job_b_2` — built from its position in the
combined batch — not `job_b_0`. -/
theorem C8_id_not_from_within_source_index :
    (store_embeddings
        [{ text := "t0".toList, source := "a".toList, chunk_id := 0,
           total_chunks := 2, char_count := 2 },
         { text := "t1".toList, source := "a".toList, chunk_id := 1,
           total_chunks := 2, char_count := 2 },
         { text := "u0".toList, source := "b".toList, chunk_id := 0,
           total_chunks := 1, char_count := 2 }]
        [1, 2, 3] ("job".toList)).map VecRecord.id ≠
      [mkVectorId ("job".toList) ("a".toList) 0,
       mkVectorId ("job".toList) ("a".toList) 1,
       mkVectorId ("job".toList) ("b".toList) 0] := by
  decide

/-- C8 (amended): every record written by `store_embeddings` has id
`f"{job_id}_{source}_{idx}"` where `idx` is the record's position in the
combined chunk list of the run (not the chunk's index within its source
document), and the ids of one run are pairwise distinct. -/
theorem C8_vector_ids_positional_and_unique {α : Type} (job_id : List Char)
    (chunks : List Chunk) (embeddings : List α) :
    (∀ i (hi : i < (store_embeddings chunks embeddings job_id).length),
        ((store_embeddings chunks embeddings job_id).get ⟨i, hi⟩).id =
          mkVectorId job_id
            ((store_embeddings chunks embeddings job_id).get ⟨i, hi⟩).source i) ∧
      ((store_embeddings chunks embeddings job_id).map VecRecord.id).Nodup := by
  constructor
  · intro i hi
    unfold store_embeddings at hi ⊢
    simp only [List.get_eq_getElem, List.getElem_map, List.getElem_enum]
  · have hen : ((chunks.zip embeddings).enum).Nodup :=
      List.Nodup.of_map Prod.fst (List.nodup_enum_map_fst _)
    have hmap : (store_embeddings chunks embeddings job_id).map VecRecord.id =
        ((chunks.zip embeddings).enum).map
          (fun p => mkVectorId job_id p.2.1.source p.1) := by
      unfold store_embeddings
      rw [List.map_map]
      rfl
    rw [hmap]
    refine List.Nodup.map_on ?_ hen
    intro p hp q hq hf
    obtain ⟨i, x⟩ := p
    obtain ⟨j, y⟩ := q
    have hidx : i = j := mkVectorId_inj_idx hf
    subst hidx
    have h1 := List.mk_mem_enum_iff_getElem?.mp hp
    have h2 := List.mk_mem_enum_iff_getElem?.mp hq
    rw [h1] at h2
    injection h2 with h3
    rw [h3]

/-- Witness for `C8_vector_ids_positional_and_unique` at a concrete run. -/
theorem C8_vector_ids_positional_and_unique_witness :
    (∀ i (hi : i < (store_embeddings
        [{ text := "t0".toList, source := "a".toList, chunk_id := 0,
           total_chunks := 2, char_count := 2 },
         { text := "t1".toList, source := "a".toList, chunk_id := 1,
           total_chunks := 2, char_count := 2 },
         { text := "u0".toList, source := "b".toList, chunk_id := 0,
           total_chunks := 1, char_count := 2 }]
        [1, 2, 3] ("job".toList)).length),
        ((store_embeddings
        [{ text := "t0".toList, source := "a".toList, chunk_id := 0,
           total_chunks := 2, char_count := 2 },
         { text := "t1".toList, source := "a".toList, chunk_id := 1,
           total_chunks := 2, char_count := 2 },
         { text := "u0".toList, source := "b".toList, chunk_id := 0,
           total_chunks := 1, char_count := 2 }]
        [1, 2, 3] ("job".toList)).get ⟨i, hi⟩).id =
          mkVectorId ("job".toList)
            ((store_embeddings
        [{ text := "t0".toList, source := "a".toList, chunk_id := 0,
           total_chunks := 2, char_count := 2 },
         { text := "t1".toList, source := "a".toList, chunk_id := 1,
           total_chunks := 2, char_count := 2 },
         { text := "u0".toList, source := "b".toList, chunk_id := 0,
           total_chunks := 1, char_count := 2 }]
        [1, 2, 3] ("job".toList)).get ⟨i, hi⟩).source i) ∧
      ((store_embeddings
        [{ text := "t0".toList, source := "a".toList, chunk_id := 0,
           total_chunks := 2, char_count := 2 },
         { text := "t1".toList, source := "a".toList, chunk_id := 1,
           total_chunks := 2, char_count := 2 },
         { text := "u0".toList, source := "b".toList, chunk_id := 0,
           total_chunks := 1, char_count := 2 }]
        [1, 2, 3] ("job".toList)).map VecRecord.id).Nodup :=
  C8_vector_ids_positional_and_unique ("job".toList) _ _

/-! ## Prompt assembly and truncation (`rag_engine.get_response`,
`rag_engine.call_llm_api`)

`get_response` renders the retrieved contexts and the last four history
turns into a prompt template; `call_llm_api` truncates the prompt before
sending when it exceeds 2500 characters:

```python
max_length = 2500
if len(prompt) > max_length:
    question_start = prompt.rfind("Question:")
    if question_start > 0:
        context_part = prompt[:question_start]
        question_part = prompt[question_start:]
        available_space = max_length - len(question_part) - 100
        context_part = context_part[:available_space] + "\n...[truncated]...\n"
        prompt = context_part + question_part
    else:
        prompt = prompt[:max_length]
```

The relevance score is a float rendered with `f"{ctx['score']:.2f}"`; the
rendered string never influences control flow, so contexts carry it as an
opaque pre-rendered field `scoreStr`. -/

/-- A retrieved context entry as consumed by `get_response`. -/
structure CtxEntry where
  source : List Char
  scoreStr : List Char
  text : List Char
deriving DecidableEq

/-- Chat roles stored in the session history (`main.py` appends `"user"`
and `"assistant"`). -/
inductive Role
  | user
  | assistant
deriving DecidableEq

/-- `msg['role'].upper()`. -/
def roleUpper : Role → List Char
  | .user => "USER".toList
  | .assistant => "ASSISTANT".toList

/-- One history turn `{role, content, timestamp}`. -/
structure Turn where
  role : Role
  content : List Char
  timestamp : List Char
deriving DecidableEq

/-- `f"[Source: {ctx['source']}, Relevance: {ctx['score']:.2f}]\n{ctx['text']}"`. -/
def renderCtx (c : CtxEntry) : List Char :=
  "[Source: ".toList ++ c.source ++ ", Relevance: ".toList ++ c.scoreStr ++
    "]\n".toList ++ c.text

/-- The `context_text` block: the rendered contexts joined by blank
lines. -/
def context_text (contexts : List CtxEntry) : List Char :=
  List.intercalate "\n\n".toList (contexts.map renderCtx)

/-- `f"{msg['role'].upper()}: {msg['content']}"`. -/
def renderTurn (t : Turn) : List Char :=
  roleUpper t.role ++ ": ".toList ++ t.content

/-- The `history_text` block: the last four turns (`history[-4:]`)
rendered as role-labelled lines, empty when there is no history. -/
def history_text (history : List Turn) : List Char :=
  if history = [] then []
  else
    List.intercalate "\n".toList
      ((history.drop (history.length - 4)).map renderTurn)

/-- The fixed prompt preamble, up to the interpolated context block. -/
def promptPreamble : List Char :=
  ("You are a helpful AI assistant answering questions based on provided " ++
    "documents.\n\nContext from documents:\n").toList

/-- The optional history block
`f"Previous conversation:{chr(10)}{history_text}{chr(10)}{chr(10)}"`. -/
def historyBlock (history : List Turn) : List Char :=
  if history_text history = [] then []
  else "Previous conversation:\n".toList ++ history_text history ++ "\n\n".toList

/-- The fixed instruction block following the interpolated question. -/
def instructionsTail : List Char :=
  ("\n\nInstructions:\n" ++
    "1. Answer the question based ONLY on the provided context\n" ++
    "2. Be specific and cite sources when possible\n" ++
    "3. If the context doesn\x27t contain the answer, say so\n" ++
    "4. Keep your answer concise and relevant\n" ++
    "5. Maintain conversation continuity if there\x27s previous context\n" ++
    "6. No special characters and response should be in plain text\n" ++
    "Answer:").toList

/-- The assembled prompt of `get_response`. -/
def buildPrompt (contexts : List CtxEntry) (history : List Turn)
    (query : List Char) : List Char :=
  promptPreamble ++ context_text contexts ++ "\n\n".toList ++
    historyBlock history ++ "User Question: ".toList ++ query ++ instructionsTail

/-- The needle of `prompt.rfind("Question:")`. -/
def questionMarker : List Char := "Question:".toList

/-- `max_length` of `call_llm_api`. -/
def maxPromptLength : ℕ := 2500

/-- The truncation marker inserted by `call_llm_api`. -/
def truncMarker : List Char := "\n...[truncated]...\n".toList

/-- Python slicing `l[:k]` for a possibly negative bound `k`. -/
def pyTake (l : List Char) (k : ℤ) : List Char :=
  if 0 ≤ k then l.take k.toNat else l.take (l.length - (-k).toNat)

/-- Scan for the highest occurrence index of `needle`, from `i`
downwards. -/
def rfindAux (needle hay : List Char) : ℕ → Option ℕ
  | 0 => if needle.isPrefixOf hay then some 0 else none
  | i + 1 =>
    if needle.isPrefixOf (hay.drop (i + 1)) then some (i + 1)
    else rfindAux needle hay i

/-- Python `hay.rfind(needle)`: the highest index at which `needle`
occurs, `none` when it does not occur (Python returns `-1`). -/
def rfind (needle hay : List Char) : Option ℕ :=
  rfindAux needle hay hay.length

/-- The truncation performed by `call_llm_api` before sending the
prompt. -/
def truncate_prompt (prompt : List Char) : List Char :=
  if prompt.length > maxPromptLength then
    match rfind questionMarker prompt with
    | some q =>
      if 0 < q then
        let context_part := prompt.take q
        let question_part := prompt.drop q
        let available_space : ℤ :=
          (maxPromptLength : ℤ) - question_part.length - 100
        pyTake context_part available_space ++ truncMarker ++ question_part
      else prompt.take maxPromptLength
    | none => prompt.take maxPromptLength
  else prompt

/-- A cited source of the answer (top-3, 200-character excerpt). -/
structure SourceRef where
  source : List Char
  excerpt : List Char
  scoreStr : List Char
deriving DecidableEq

/-- The fixed fallback answer returned when retrieval yields no match. -/
def insufficientAnswer : List Char :=
  ("I don\x27t have enough information to answer that question based on " ++
    "the uploaded documents.").toList

/-- `RAGEngine.get_response`.  The retrieved contexts (Pinecone) and the
generation call (`requests.post` inside `call_llm_api`) are external, so
they enter as the `contexts` argument and the `llm` oracle; `llm` receives
exactly the truncated prompt that goes out on the wire.  Any error is
wrapped as `"Error generating response: ..."`. -/
def get_response (query : List Char) (history : List Turn)
    (contexts : List CtxEntry)
    (llm : List Char → Except (List Char) (List Char)) :
    Except (List Char) (List Char × List SourceRef) :=
  if contexts = [] then .ok (insufficientAnswer, [])
  else
    match llm (truncate_prompt (buildPrompt contexts history query)) with
    | .ok response =>
      .ok (response, (contexts.take 3).map fun ctx =>
        { source := ctx.source
          excerpt := ctx.text.take 200 ++ "...".toList
          scoreStr := ctx.scoreStr })
    | .error e => .error ("Error generating response: ".toList ++ e)

/-- C4: when the vector index returns no matches, `get_response` returns
the fixed insufficient-information answer with an empty source list, is
not an error, and never invokes the generation backend (the result is the
same for every oracle `llm`). -/
theorem C4_no_matches_fixed_answer (query : List Char) (history : List Turn)
    (llm : List Char → Except (List Char) (List Char)) :
    get_response query history [] llm = .ok (insufficientAnswer, []) := by
  rfl

/-! ### Correctness of `rfind` -/

theorem rfindAux_spec {needle hay : List Char} :
    ∀ i p, rfindAux needle hay i = some p →
      needle <+: hay.drop p ∧ p ≤ i ∧
        ∀ q ≤ i, needle <+: hay.drop q → q ≤ p := by
  intro i
  induction i with
  | zero =>
    intro p h
    by_cases hp : needle.isPrefixOf hay = true
    · rw [show rfindAux needle hay 0 = some 0 by simp [rfindAux, hp]] at h
      injection h with h0
      subst h0
      refine ⟨by simpa using hp, Nat.le_refl _, ?_⟩
      intro q hq _
      exact hq
    · rw [show rfindAux needle hay 0 = none by simp [rfindAux, hp]] at h
      exact absurd h (by simp)
  | succ i ih =>
    intro p h
    by_cases hp : needle.isPrefixOf (hay.drop (i + 1)) = true
    · rw [show rfindAux needle hay (i + 1) = some (i + 1) by
        simp [rfindAux, hp]] at h
      injection h with h0
      subst h0
      refine ⟨by simpa using hp, Nat.le_refl _, ?_⟩
      intro q hq _
      exact hq
    · rw [show rfindAux needle hay (i + 1) = rfindAux needle hay i by
        simp [rfindAux, hp]] at h
      obtain ⟨h1, h2, h3⟩ := ih p h
      refine ⟨h1, Nat.le_trans h2 (Nat.le_succ _), ?_⟩
      intro q hq hqocc
      rcases Nat.lt_or_ge q (i + 1) with hlt | hge
      · exact h3 q (by omega) hqocc
      · exfalso
        have hq1 : q = i + 1 := by omega
        subst hq1
        exact hp (by simpa using hqocc)

theorem rfindAux_isSome {needle hay : List Char} :
    ∀ i q, q ≤ i → needle <+: hay.drop q →
      (rfindAux needle hay i).isSome = true := by
  intro i
  induction i with
  | zero =>
    intro q hq hocc
    have hq0 : q = 0 := by omega
    subst hq0
    simp only [List.drop_zero] at hocc
    simp [rfindAux, hocc]
  | succ i ih =>
    intro q hq hocc
    by_cases hp : needle.isPrefixOf (hay.drop (i + 1)) = true
    · simp [rfindAux, hp]
    · rw [show rfindAux needle hay (i + 1) = rfindAux needle hay i by
        simp [rfindAux, hp]]
      rcases Nat.lt_or_ge q (i + 1) with hlt | hge
      · exact ih q (by omega) hocc
      · exfalso
        have hq1 : q = i + 1 := by omega
        subst hq1
        exact hp (by simpa using hocc)

theorem rfind_eq_some {needle hay : List Char} {p : ℕ}
    (hocc : needle <+: hay.drop p) (hple : p ≤ hay.length)
    (hmax : ∀ q, needle <+: hay.drop q → q ≤ p) :
    rfind needle hay = some p := by
  unfold rfind
  have hs := rfindAux_isSome hay.length p hple hocc
  cases hr : rfindAux needle hay hay.length with
  | none => rw [hr] at hs; simp at hs
  | some r =>
    obtain ⟨h1, _, h3⟩ := rfindAux_spec hay.length r hr
    have hrp : p ≤ r := h3 p hple hocc
    have hpr : r ≤ p := hmax r h1
    rw [Nat.le_antisymm hpr hrp]

/-! ### Splitting an occurrence across an append -/

theorem infix_append_split {m xs ys : List Char} (h : m <:+: xs ++ ys) :
    m <:+: xs ∨ m <:+: ys ∨
      ∃ s t, s ≠ [] ∧ t ≠ [] ∧ m = s ++ t ∧ s <:+ xs ∧ t <+: ys := by
  obtain ⟨u, v, huv⟩ := h
  by_cases hcase : xs.length ≤ u.length
  · have hux : u <+: xs ++ ys := ⟨m ++ v, by rw [← huv]; simp [List.append_assoc]⟩
    have hxu : xs <+: u :=
      List.prefix_of_prefix_length_le (List.prefix_append xs ys) hux hcase
    obtain ⟨u2, hu2⟩ := hxu
    right; left
    refine ⟨u2, v, ?_⟩
    have h2 : xs ++ (u2 ++ m ++ v) = xs ++ ys := by
      rw [← hu2] at huv
      rw [← huv]
      simp [List.append_assoc]
    exact List.append_cancel_left h2
  · have hlt : u.length < xs.length := by omega
    have hux : u <+: xs ++ ys := ⟨m ++ v, by rw [← huv]; simp [List.append_assoc]⟩
    have hxu : u <+: xs :=
      List.prefix_of_prefix_length_le hux (List.prefix_append xs ys) (by omega)
    obtain ⟨xs2, hxs2⟩ := hxu
    by_cases hcase2 : u.length + m.length ≤ xs.length
    · have hum : u ++ m <+: xs ++ ys :=
        ⟨v, by rw [← huv]⟩
      have hum2 : u ++ m <+: xs :=
        List.prefix_of_prefix_length_le hum (List.prefix_append xs ys)
          (by simp only [List.length_append]; omega)
      obtain ⟨r, hr⟩ := hum2
      left
      exact ⟨u, r, by rw [← hr]⟩
    · have hxs2ne : xs2 ≠ [] := by
        intro h0
        rw [h0] at hxs2
        simp at hxs2
        rw [hxs2] at hlt
        exact absurd hlt (lt_irrefl _)
      have hxm : xs <+: u ++ m := by
        refine List.prefix_of_prefix_length_le (List.prefix_append xs ys) ?_
          (by simp only [List.length_append]; omega)
        exact ⟨v, by rw [← huv]⟩
      have hx2m : xs2 <+: m := by
        rw [← hxs2] at hxm
        exact (List.prefix_append_right_inj u).mp hxm
      obtain ⟨mt, hmt⟩ := hx2m
      have hlen2 : xs2.length + mt.length = m.length := by
        have := congrArg List.length hmt
        simpa using this
      have hxs2len : u.length + xs2.length = xs.length := by
        have := congrArg List.length hxs2
        simpa using this
      have hmtne : mt ≠ [] := by
        intro h0
        rw [h0] at hlen2
        simp at hlen2
        omega
      right; right
      refine ⟨xs2, mt, hxs2ne, hmtne, hmt.symm, ⟨u, hxs2⟩, ?_⟩
      refine ⟨v, ?_⟩
      have h5 : (u ++ xs2) ++ (mt ++ v) = (u ++ xs2) ++ ys := by
        rw [hxs2, ← huv, ← hmt, ← hxs2]
        simp [List.append_assoc]
      exact List.append_cancel_left h5

/-! ### The question marker occurs last at the assembly position -/

theorem head?_of_pre {l₁ l₂ : List Char} (h : l₁ <+: l₂) (hne : l₁ ≠ []) :
    l₂.head? = l₁.head? := by
  obtain ⟨t, rfl⟩ := h
  exact List.head?_append_of_ne_nil _ hne

theorem suffix_of_singleton {s : List Char} {c : Char} (h : s <:+ [c])
    (hne : s ≠ []) : s = [c] := by
  obtain ⟨t, ht⟩ := h
  cases t with
  | nil => simpa using ht
  | cons a as =>
    exfalso
    simp only [List.cons_append, List.cons.injEq] at ht
    have h2 := ht.2
    rw [List.append_eq_nil] at h2
    exact absurd h2.2 hne

theorem not_infix_of_mem_not_mem {m L : List Char} {c : Char} (hc : c ∈ m)
    (hL : c ∉ L) : ¬ m <:+: L :=
  fun h => hL (h.sublist.subset hc)

set_option maxRecDepth 4000

/-- The question marker cannot occur inside the rendered
`" {query}{instructions}"` region when the query itself does not contain
it: the region starts with a space, `"Question:"` does not occur in the
fixed instruction block, and no straddling match is possible because no
proper tail of the marker starts with the instruction block's first
character. -/
theorem marker_not_infix_querytail {q : List Char}
    (hq : ¬ questionMarker <:+: q) :
    ¬ questionMarker <:+: (' ' :: (q ++ instructionsTail)) := by
  intro h
  rw [show ' ' :: (q ++ instructionsTail) = ([' '] ++ q) ++ instructionsTail by
    simp] at h
  rcases infix_append_split h with h1 | h2 | ⟨s, t, hs, ht, hm, hsuf, hpre⟩
  · rcases infix_append_split h1 with h3 | h4 | ⟨s, t, hs, ht, hm, hsuf, hpre⟩
    · have hlen := h3.length_le
      have h9 : questionMarker.length = 9 := rfl
      simp [h9] at hlen
    · exact hq h4
    · have hss := suffix_of_singleton hsuf hs
      rw [hss] at hm
      have hhd := congrArg List.head? hm
      rw [show questionMarker.head? = some 'Q' from rfl] at hhd
      rw [show (([' '] : List Char) ++ t).head? = some ' ' from rfl] at hhd
      simp at hhd
  · have hni : ¬ questionMarker <:+: instructionsTail := by decide
    exact hni h2
  · have hlen : s.length + t.length = 9 := by
      have h0 := congrArg List.length hm
      have h9 : questionMarker.length = 9 := rfl
      rw [h9] at h0
      simpa using h0.symm
    have hs1 : 1 ≤ s.length := List.length_pos.mpr hs
    have ht1 : 1 ≤ t.length := List.length_pos.mpr ht
    have htd : t = questionMarker.drop s.length := by
      rw [hm, List.drop_left]
    have hth : instructionsTail.head? = t.head? := head?_of_pre hpre ht
    have hdec : ∀ k, k < 9 → 1 ≤ k →
        (questionMarker.drop k).head? ≠ instructionsTail.head? := by decide
    exact hdec s.length (by omega) hs1 (by rw [← htd, ← hth])

/-- No occurrence of the question marker strictly after the position at
which the decomposition `A ++ "Question:" ++ " {q}{instructions}"` places
it, provided the query `q` does not contain the marker. -/
theorem no_occurrence_after {A q : List Char}
    (hq : ¬ questionMarker <:+: q) :
    ∀ j, A.length < j →
      ¬ questionMarker <+:
        (A ++ questionMarker ++ (' ' :: (q ++ instructionsTail))).drop j := by
  intro j hj hocc
  obtain ⟨k, hk, hkpos⟩ : ∃ k, j = A.length + k ∧ 1 ≤ k :=
    ⟨j - A.length, by omega, by omega⟩
  subst hk
  rw [List.append_assoc, List.drop_append] at hocc
  by_cases hk9 : k ≤ 8
  · rw [List.drop_append_of_le_length
      (by rw [show questionMarker.length = 9 from rfl]; omega)] at hocc
    have hne : questionMarker.drop k ≠ [] := by
      intro h0
      have h1 := congrArg List.length h0
      rw [List.length_drop, show questionMarker.length = 9 from rfl] at h1
      simp at h1
      omega
    have hh := head?_of_pre hocc (by decide)
    rw [List.head?_append_of_ne_nil _ hne,
      show questionMarker.head? = some 'Q' from rfl] at hh
    have hdec2 : ∀ k2, k2 < 9 → 1 ≤ k2 →
        (questionMarker.drop k2).head? ≠ some 'Q' := by decide
    exact hdec2 k (by omega) hkpos hh
  · obtain ⟨k2, hk2⟩ : ∃ k2, k = questionMarker.length + k2 :=
      ⟨k - 9, by rw [show questionMarker.length = 9 from rfl]; omega⟩
    rw [hk2, List.drop_append] at hocc
    exact marker_not_infix_querytail hq
      (hocc.isInfix.trans (List.drop_suffix k2 _).isInfix)

/-- `rfind` locates the marker of the decomposition
`A ++ "Question:" ++ " {q}{instructions}"` exactly at `A.length`. -/
theorem rfind_decomp {A q : List Char} (hq : ¬ questionMarker <:+: q) :
    rfind questionMarker
        (A ++ questionMarker ++ (' ' :: (q ++ instructionsTail))) =
      some A.length := by
  apply rfind_eq_some
  · rw [List.append_assoc, List.drop_left]
    exact List.prefix_append _ _
  · rw [List.append_assoc, List.length_append]
    omega
  · intro j hocc
    by_contra hgt
    exact no_occurrence_after hq j (by omega) hocc

/-- What the truncation of `call_llm_api` does to a long prompt of the
decomposed shape: the part before the final marker — instructions
preamble, context block and history block together — is cut down to a
prefix fitting the remaining budget and suffixed with the visible
truncation marker; the question part (marker, query, instruction block)
is kept intact. -/
theorem truncate_decomp {A q : List Char} (hq : ¬ questionMarker <:+: q)
    (hA : A ≠ [])
    (hlong : (A ++ questionMarker ++
      (' ' :: (q ++ instructionsTail))).length > maxPromptLength) :
    truncate_prompt (A ++ questionMarker ++ (' ' :: (q ++ instructionsTail))) =
      pyTake A ((maxPromptLength : ℤ) -
          (questionMarker ++ (' ' :: (q ++ instructionsTail))).length - 100) ++
        truncMarker ++
        (questionMarker ++ (' ' :: (q ++ instructionsTail))) := by
  unfold truncate_prompt
  rw [if_pos hlong, rfind_decomp hq]
  have hpos : 0 < A.length := List.length_pos.mpr hA
  simp only [if_pos hpos]
  have ht : List.take A.length
      (A ++ questionMarker ++ (' ' :: (q ++ instructionsTail))) = A := by
    rw [List.append_assoc]
    exact List.take_left _ _
  have hd : List.drop A.length
      (A ++ questionMarker ++ (' ' :: (q ++ instructionsTail))) =
        questionMarker ++ (' ' :: (q ++ instructionsTail)) := by
    rw [List.append_assoc]
    exact List.drop_left _ _
  rw [ht, hd, List.append_assoc]

/-- Everything of the assembled prompt that precedes the last assembled
occurrence of `"Question:"`: preamble, context block, history block and
`"User "`. -/
def preQuestion (contexts : List CtxEntry) (history : List Turn) : List Char :=
  promptPreamble ++ context_text contexts ++ "\n\n".toList ++
    historyBlock history ++ "User ".toList

theorem buildPrompt_decomp (contexts : List CtxEntry) (history : List Turn)
    (query : List Char) :
    buildPrompt contexts history query =
      preQuestion contexts history ++ questionMarker ++
        (' ' :: (query ++ instructionsTail)) := by
  unfold buildPrompt preQuestion
  rw [show ("User Question: ".toList : List Char) =
    "User ".toList ++ questionMarker ++ [' '] from by decide]
  simp [List.append_assoc]

theorem preQuestion_ne_nil (contexts : List CtxEntry) (history : List Turn) :
    preQuestion contexts history ≠ [] := by
  intro h0
  have h1 := congrArg List.length h0
  rw [preQuestion] at h1
  simp only [List.length_append, List.length_nil] at h1
  have h2 : 0 < promptPreamble.length := by decide
  omega

/-- C1 (amended): when the query itself does not contain the substring
`"Question:"`, the truncation of `call_llm_api` keeps the query verbatim
in the sent prompt: `rfind` then locates the marker the template placed
before the query, and the entire question part survives the cut.  (As
stated for arbitrary queries the claim fails: a query containing
`"Question:"` moves the `rfind` position into the query, and the query's
head is truncated away — see the counterexample.) -/
theorem C1_truncation_keeps_question (contexts : List CtxEntry)
    (history : List Turn) (query : List Char)
    (hq : ¬ questionMarker <:+: query)
    (hlong : (buildPrompt contexts history query).length > maxPromptLength) :
    query <:+: truncate_prompt (buildPrompt contexts history query) := by
  rw [buildPrompt_decomp] at hlong ⊢
  rw [truncate_decomp hq (preQuestion_ne_nil contexts history) hlong]
  have hqin : query <:+:
      questionMarker ++ (' ' :: (query ++ instructionsTail)) :=
    ⟨questionMarker ++ [' '], instructionsTail, by simp [List.append_assoc]⟩
  exact hqin.trans (List.suffix_append _ _).isInfix

/-- C2 (amended): on a long prompt whose query does not contain
`"Question:"`, the truncation replaces the whole region before the final
marker — the context block TOGETHER WITH the history block — by a prefix
of it fitting the budget `2500 - len(question part) - 100`, followed by
the visible marker `"\n...[truncated]...\n"`, and keeps the question part
intact.  The removed characters are the tail of that region, so the
history block, which sits at its end, is the first content to be cut (see
the counterexample); the claim's assertion that only the context block is
shortened and the most recent history is preserved does not hold. -/
theorem C2_truncation_cuts_preQuestion_tail (contexts : List CtxEntry)
    (history : List Turn) (query : List Char)
    (hq : ¬ questionMarker <:+: query)
    (hlong : (buildPrompt contexts history query).length > maxPromptLength) :
    truncate_prompt (buildPrompt contexts history query) =
      pyTake (preQuestion contexts history)
          ((maxPromptLength : ℤ) -
            (questionMarker ++ (' ' :: (query ++ instructionsTail))).length -
            100) ++
        truncMarker ++
        (questionMarker ++ (' ' :: (query ++ instructionsTail))) := by
  rw [buildPrompt_decomp] at hlong ⊢
  exact truncate_decomp hq (preQuestion_ne_nil contexts history) hlong

/-! ### Concrete long-prompt scenarios -/

/-- A retrieved context whose text is a 2600-character run, long enough to
push the assembled prompt over the 2500-character limit. -/
def demoCtx : CtxEntry :=
  { source := "d.pdf".toList
    scoreStr := "0.90".toList
    text := List.replicate 2600 'x' }

/-- A history turn whose content is the only place the letter `Z` occurs
in the scenarios below. -/
def demoTurn : Turn :=
  { role := .user, content := "ZZZZ".toList, timestamp := "t0".toList }

/-- The literal part of `renderCtx demoCtx` before the context text. -/
def ctxLit : List Char := "[Source: d.pdf, Relevance: 0.90]\n".toList

theorem intercalate_single (sep a : List Char) :
    List.intercalate sep [a] = a := by
  simp [List.intercalate]

theorem renderCtx_demo :
    renderCtx demoCtx = ctxLit ++ List.replicate 2600 'x' := by
  rw [renderCtx]
  rw [show demoCtx.source = "d.pdf".toList from rfl,
    show demoCtx.scoreStr = "0.90".toList from rfl,
    show demoCtx.text = List.replicate 2600 'x' from rfl]
  rw [show ("[Source: ".toList ++ "d.pdf".toList ++ ", Relevance: ".toList ++
    "0.90".toList ++ "]\n".toList : List Char) = ctxLit from by decide]

theorem context_text_demo :
    context_text [demoCtx] = ctxLit ++ List.replicate 2600 'x' := by
  rw [context_text, List.map_cons, List.map_nil, intercalate_single,
    renderCtx_demo]

/-- No `Z` in any prefix of the pre-question region that stops inside the
2600-character context run (position at most `105 + 33 + 2600 = 2738`),
whatever the history is. -/
theorem no_Z_in_preQuestion_take (history : List Turn) (N : ℕ)
    (hN : N ≤ 2738) : 'Z' ∉ (preQuestion [demoCtx] history).take N := by
  intro hmem
  rw [preQuestion, context_text_demo] at hmem
  have hlen1 : (promptPreamble ++ (ctxLit ++ List.replicate 2600 'x')).length =
      2738 := by
    simp only [List.length_append, List.length_replicate]
    rw [show promptPreamble.length = 105 from by decide,
      show ctxLit.length = 33 from by decide]
  have hlen2 : (promptPreamble ++ (ctxLit ++ List.replicate 2600 'x') ++
      "\n\n".toList).length = 2740 := by
    simp only [List.length_append]
    rw [List.length_append] at hlen1
    simp only [List.length_append, List.length_replicate] at hlen1 ⊢
    rw [show ("\n\n".toList : List Char).length = 2 from by decide]
    omega
  rw [List.take_append_of_le_length (by
      simp only [List.length_append]
      rw [List.length_append, List.length_append] at hlen2
      simp only [List.length_append] at hlen2
      omega),
    List.take_append_of_le_length (by rw [hlen2]; omega),
    List.take_append_of_le_length (by rw [hlen1]; omega)] at hmem
  have hsub : 'Z' ∈ promptPreamble ++ (ctxLit ++ List.replicate 2600 'x') :=
    (List.take_prefix _ _).sublist.subset hmem
  rcases List.mem_append.mp hsub with h1 | h2
  · exact absurd h1 (by decide)
  · rcases List.mem_append.mp h2 with h3 | h4
    · exact absurd h3 (by decide)
    · have := List.eq_of_mem_replicate h4
      simp at this

theorem preQuestion_demo_length (history : List Turn) :
    (preQuestion [demoCtx] history).length =
      2745 + (historyBlock history).length := by
  rw [preQuestion, context_text_demo]
  simp only [List.length_append, List.length_replicate]
  rw [show promptPreamble.length = 105 from by decide,
    show ctxLit.length = 33 from by decide,
    show ("\n\n".toList : List Char).length = 2 from by decide,
    show ("User ".toList : List Char).length = 5 from by decide]
  omega

/-- The scenario prompt (2600-character context, one history turn, query
`"What?"`) exceeds the 2500-character limit. -/
theorem demoPrompt_long :
    (buildPrompt [demoCtx] [demoTurn] ("What?".toList)).length >
      maxPromptLength := by
  rw [buildPrompt_decomp]
  simp only [List.length_append, List.length_cons]
  rw [preQuestion_demo_length]
  rw [show (historyBlock [demoTurn]).length = 35 from by decide,
    show questionMarker.length = 9 from rfl,
    show ("What?".toList : List Char).length = 5 from by decide,
    show instructionsTail.length = 347 from by decide,
    show maxPromptLength = 2500 from rfl]
  omega

theorem C1_prompt_decomp :
    buildPrompt [demoCtx] [] ("ZZ Question: what".toList) =
      (preQuestion [demoCtx] [] ++ questionMarker ++ (' ' :: "ZZ ".toList)) ++
        questionMarker ++ (' ' :: ("what".toList ++ instructionsTail)) := by
  rw [buildPrompt_decomp]
  rw [show ("ZZ Question: what".toList : List Char) =
    "ZZ ".toList ++ questionMarker ++ (' ' :: "what".toList) from by decide]
  simp [List.append_assoc]

/-- C1 (counterexample): with a 2600-character retrieved context and the
query `"ZZ Question: what"` — a query containing the substring
`"Question:"` — `rfind` locates the marker inside the query, the cut
removes the head `"ZZ "` of the query together with the context tail, and
the sent prompt no longer contains the question verbatim. -/
theorem C1_counterexample :
    ((buildPrompt [demoCtx] [] ("ZZ Question: what".toList)).length >
        maxPromptLength) ∧
      ¬ ("ZZ Question: what".toList <:+:
          truncate_prompt
            (buildPrompt [demoCtx] [] ("ZZ Question: what".toList))) := by
  have hq : ¬ questionMarker <:+: ("what".toList) := by decide
  have hlong : (buildPrompt [demoCtx] [] ("ZZ Question: what".toList)).length >
      maxPromptLength := by
    rw [C1_prompt_decomp]
    simp only [List.length_append, List.length_cons]
    rw [preQuestion_demo_length]
    rw [show (historyBlock ([] : List Turn)).length = 0 from by decide,
      show questionMarker.length = 9 from rfl,
      show ("ZZ ".toList : List Char).length = 3 from by decide,
      show ("what".toList : List Char).length = 4 from by decide,
      show instructionsTail.length = 347 from by decide,
      show maxPromptLength = 2500 from rfl]
    omega
  refine ⟨hlong, ?_⟩
  have hA2 : (preQuestion [demoCtx] [] ++ questionMarker ++
      (' ' :: "ZZ ".toList)) ≠ [] := by simp
  have hlong2 : ((preQuestion [demoCtx] [] ++ questionMarker ++
      (' ' :: "ZZ ".toList)) ++ questionMarker ++
      (' ' :: ("what".toList ++ instructionsTail))).length >
        maxPromptLength := by
    rw [← C1_prompt_decomp]
    exact hlong
  rw [C1_prompt_decomp, truncate_decomp hq hA2 hlong2]
  apply not_infix_of_mem_not_mem (c := 'Z') (by decide)
  intro hmem
  rcases List.mem_append.mp hmem with hmem1 | hmem2
  · rcases List.mem_append.mp hmem1 with hmem3 | hmem4
    · have hQP : (questionMarker ++
          (' ' :: ("what".toList ++ instructionsTail))).length = 361 := by
        simp only [List.length_append, List.length_cons]
        rw [show questionMarker.length = 9 from rfl,
          show ("what".toList : List Char).length = 4 from by decide,
          show instructionsTail.length = 347 from by decide]
      rw [hQP] at hmem3
      rw [show ((maxPromptLength : ℤ) - (361 : ℕ) - 100) = 2039 from by
        rw [show maxPromptLength = 2500 from rfl]; norm_num] at hmem3
      rw [show pyTake (preQuestion [demoCtx] [] ++ questionMarker ++
          (' ' :: "ZZ ".toList)) 2039 =
        (preQuestion [demoCtx] [] ++ questionMarker ++
          (' ' :: "ZZ ".toList)).take 2039 from by
            rw [pyTake, if_pos (by norm_num)]; rfl] at hmem3
      rw [List.take_append_of_le_length (by
          simp only [List.length_append]
          rw [preQuestion_demo_length,
            show (historyBlock ([] : List Turn)).length = 0 from by decide,
            show questionMarker.length = 9 from rfl]
          omega),
        List.take_append_of_le_length (by
          rw [preQuestion_demo_length,
            show (historyBlock ([] : List Turn)).length = 0 from by decide]
          omega)] at hmem3
      exact no_Z_in_preQuestion_take [] 2039 (by omega) hmem3
    · exact absurd hmem4 (by decide)
  · exact absurd hmem2 (by decide)

/-- C2 (counterexample): with a 2600-character retrieved context the
history block is NOT preserved by truncation: the rendered most recent
turn occurs in the assembled prompt but not in the sent prompt, because
the cut keeps only a prefix of the pre-question region and the history
block sits at that region's end. -/
theorem C2_counterexample :
    ((buildPrompt [demoCtx] [demoTurn] ("What?".toList)).length >
        maxPromptLength) ∧
      (renderTurn demoTurn <:+:
        buildPrompt [demoCtx] [demoTurn] ("What?".toList)) ∧
      ¬ (renderTurn demoTurn <:+:
          truncate_prompt
            (buildPrompt [demoCtx] [demoTurn] ("What?".toList))) := by
  refine ⟨demoPrompt_long, ?_, ?_⟩
  · have h1 : renderTurn demoTurn <:+: historyBlock [demoTurn] := by decide
    have h2 : historyBlock [demoTurn] <:+:
        buildPrompt [demoCtx] [demoTurn] ("What?".toList) := by
      unfold buildPrompt
      exact ⟨promptPreamble ++ context_text [demoCtx] ++ "\n\n".toList,
        "User Question: ".toList ++ "What?".toList ++ instructionsTail,
        by simp [List.append_assoc]⟩
    exact h1.trans h2
  · have hq : ¬ questionMarker <:+: ("What?".toList) := by decide
    have hlong2 : (preQuestion [demoCtx] [demoTurn] ++ questionMarker ++
        (' ' :: ("What?".toList ++ instructionsTail))).length >
          maxPromptLength := by
      rw [← buildPrompt_decomp]
      exact demoPrompt_long
    rw [buildPrompt_decomp,
      truncate_decomp hq (preQuestion_ne_nil [demoCtx] [demoTurn]) hlong2]
    apply not_infix_of_mem_not_mem (c := 'Z') (by decide)
    intro hmem
    rcases List.mem_append.mp hmem with hmem1 | hmem2
    · rcases List.mem_append.mp hmem1 with hmem3 | hmem4
      · have hQP : (questionMarker ++
            (' ' :: ("What?".toList ++ instructionsTail))).length = 362 := by
          simp only [List.length_append, List.length_cons]
          rw [show questionMarker.length = 9 from rfl,
            show ("What?".toList : List Char).length = 5 from by decide,
            show instructionsTail.length = 347 from by decide]
        rw [hQP] at hmem3
        rw [show ((maxPromptLength : ℤ) - (362 : ℕ) - 100) = 2038 from by
          rw [show maxPromptLength = 2500 from rfl]; norm_num] at hmem3
        rw [show pyTake (preQuestion [demoCtx] [demoTurn]) 2038 =
          (preQuestion [demoCtx] [demoTurn]).take 2038 from by
            rw [pyTake, if_pos (by norm_num)]; rfl] at hmem3
        exact no_Z_in_preQuestion_take [demoTurn] 2038 (by omega) hmem3
      · exact absurd hmem4 (by decide)
    · exact absurd hmem2 (by decide)

/-- Witness for `C1_truncation_keeps_question` at a concrete long
prompt. -/
theorem C1_truncation_keeps_question_witness :
    (¬ questionMarker <:+: ("What?".toList)) ∧
      ((buildPrompt [demoCtx] [demoTurn] ("What?".toList)).length >
        maxPromptLength) ∧
      ("What?".toList <:+:
        truncate_prompt (buildPrompt [demoCtx] [demoTurn] ("What?".toList))) :=
  ⟨by decide, demoPrompt_long,
    C1_truncation_keeps_question [demoCtx] [demoTurn] ("What?".toList)
      (by decide) demoPrompt_long⟩

/-- Witness for `C2_truncation_cuts_preQuestion_tail` at a concrete long
prompt. -/
theorem C2_truncation_cuts_preQuestion_tail_witness :
    (¬ questionMarker <:+: ("What?".toList)) ∧
      ((buildPrompt [demoCtx] [demoTurn] ("What?".toList)).length >
        maxPromptLength) ∧
      (truncate_prompt (buildPrompt [demoCtx] [demoTurn] ("What?".toList)) =
        pyTake (preQuestion [demoCtx] [demoTurn])
            ((maxPromptLength : ℤ) -
              (questionMarker ++
                (' ' :: ("What?".toList ++ instructionsTail))).length - 100) ++
          truncMarker ++
          (questionMarker ++ (' ' :: ("What?".toList ++ instructionsTail)))) :=
  ⟨by decide, demoPrompt_long,
    C2_truncation_cuts_preQuestion_tail [demoCtx] [demoTurn] ("What?".toList)
      (by decide) demoPrompt_long⟩

/-! ## Chat sessions (`main.chat`, `main.get_chat_history`, `main.health_check`)

```python
session_id = chat_message.session_id or str(uuid.uuid4())
if session_id not in chat_sessions:
    chat_sessions[session_id] = []
history = chat_sessions[session_id]
try:
    response, sources = await rag_engine.get_response(...)
    chat_sessions[session_id].append({"role": "user", ...})
    chat_sessions[session_id].append({"role": "assistant", ...})
    return ChatResponse(...)
except Exception as e:
    raise HTTPException(500, f"Error generating response: {str(e)}")
```

The session dictionary is modelled as a finite map (`AList`); the fresh
`uuid.uuid4()` and the two timestamps are parameters; the answering engine
is the `gen` oracle, called with the session's history exactly as the code
does. -/

/-- The in-memory `chat_sessions` dictionary. -/
abbrev SessionMap := AList (fun _ : List Char => List Turn)

/-- The response body of a successful `/chat` request. -/
structure ChatResponse where
  response : List Char
  sources : List SourceRef
  session_id : List Char
deriving DecidableEq

/-- `/chat/history/{session_id}`: the turn sequence, empty for unknown
sessions (not an error). -/
def get_chat_history (sessions : SessionMap) (session_id : List Char) :
    List Turn :=
  (sessions.lookup session_id).getD []

/-- The `active_sessions` count of `/health`. -/
def active_sessions (sessions : SessionMap) : ℕ :=
  sessions.entries.length

/-- The `/chat` handler: returns the HTTP result and the session map after
the request. -/
def chat (sessions : SessionMap) (session_id? : Option (List Char))
    (freshId message : List Char)
    (gen : List Turn → Except (List Char) (List Char × List SourceRef))
    (t1 t2 : List Char) :
    Except (List Char) ChatResponse × SessionMap :=
  let sid := session_id?.getD freshId
  let sessions1 := if sid ∈ sessions then sessions else sessions.insert sid []
  let history := (sessions1.lookup sid).getD []
  match gen history with
  | .ok (response, sources) =>
    (.ok { response := response, sources := sources, session_id := sid },
      sessions1.insert sid (history ++
        [{ role := .user, content := message, timestamp := t1 },
         { role := .assistant, content := response, timestamp := t2 }]))
  | .error e =>
    (.error ("Error generating response: ".toList ++ e), sessions1)

theorem chat_history_arg (sessions : SessionMap) (sid : List Char) :
    (((if sid ∈ sessions then sessions
        else sessions.insert sid []).lookup sid).getD []) =
      get_chat_history sessions sid := by
  by_cases hmem : sid ∈ sessions
  · rw [if_pos hmem]
    rfl
  · rw [if_neg hmem, AList.lookup_insert]
    unfold get_chat_history
    rw [AList.lookup_eq_none.mpr hmem]
    rfl

/-- C3: per chat request, a successful generation appends exactly the user
turn and then the assistant turn to the session's turn sequence; a failing
generation surfaces a single error and leaves the turn sequence exactly as
it was before the request. -/
theorem C3_chat_two_turns_or_unchanged (sessions : SessionMap)
    (session_id? : Option (List Char)) (freshId message t1 t2 : List Char)
    (gen : List Turn → Except (List Char) (List Char × List SourceRef)) :
    (∀ r, gen (get_chat_history sessions (session_id?.getD freshId)) = .ok r →
      (chat sessions session_id? freshId message gen t1 t2).1 =
          .ok { response := r.1, sources := r.2,
                session_id := session_id?.getD freshId } ∧
        get_chat_history
            (chat sessions session_id? freshId message gen t1 t2).2
            (session_id?.getD freshId) =
          get_chat_history sessions (session_id?.getD freshId) ++
            [{ role := .user, content := message, timestamp := t1 },
             { role := .assistant, content := r.1, timestamp := t2 }]) ∧
    (∀ e, gen (get_chat_history sessions (session_id?.getD freshId)) =
        .error e →
      (chat sessions session_id? freshId message gen t1 t2).1 =
          .error ("Error generating response: ".toList ++ e) ∧
        get_chat_history
            (chat sessions session_id? freshId message gen t1 t2).2
            (session_id?.getD freshId) =
          get_chat_history sessions (session_id?.getD freshId)) := by
  constructor
  · intro r hr
    unfold chat
    dsimp only
    rw [chat_history_arg, hr]
    obtain ⟨resp, srcs⟩ := r
    refine ⟨rfl, ?_⟩
    unfold get_chat_history
    rw [AList.lookup_insert]
    rfl
  · intro e he
    unfold chat
    dsimp only
    rw [chat_history_arg, he]
    refine ⟨rfl, ?_⟩
    unfold get_chat_history
    rw [show ((if session_id?.getD freshId ∈ sessions then sessions
        else sessions.insert (session_id?.getD freshId) []).lookup
          (session_id?.getD freshId)).getD [] =
      get_chat_history sessions (session_id?.getD freshId) from
        chat_history_arg sessions (session_id?.getD freshId)]
    rfl

/-- Witness for `C3_chat_two_turns_or_unchanged`: one successful and one
failing request on an empty session map. -/
theorem C3_chat_two_turns_or_unchanged_witness :
    ((chat ∅ none ("s1".toList) ("hi".toList)
        (fun _ => .ok ("ok".toList, [])) ("t1".toList) ("t2".toList)).1 =
      .ok { response := "ok".toList, sources := [],
            session_id := "s1".toList }) ∧
    (get_chat_history
        (chat ∅ none ("s1".toList) ("hi".toList)
          (fun _ => .ok ("ok".toList, [])) ("t1".toList) ("t2".toList)).2
        ("s1".toList) =
      [{ role := .user, content := "hi".toList, timestamp := "t1".toList },
       { role := .assistant, content := "ok".toList,
         timestamp := "t2".toList }]) ∧
    ((chat ∅ none ("s1".toList) ("hi".toList)
        (fun _ => .error ("boom".toList)) ("t1".toList) ("t2".toList)).1 =
      .error ("Error generating response: boom".toList)) ∧
    (get_chat_history
        (chat ∅ none ("s1".toList) ("hi".toList)
          (fun _ => .error ("boom".toList)) ("t1".toList) ("t2".toList)).2
        ("s1".toList) = []) := by
  have hok := (C3_chat_two_turns_or_unchanged ∅ none ("s1".toList)
    ("hi".toList) ("t1".toList) ("t2".toList)
    (fun _ => .ok ("ok".toList, []))).1 ("ok".toList, []) rfl
  have herr := (C3_chat_two_turns_or_unchanged ∅ none ("s1".toList)
    ("hi".toList) ("t1".toList) ("t2".toList)
    (fun _ => .error ("boom".toList))).2 ("boom".toList) rfl
  simp only [Option.getD_none] at hok herr
  refine ⟨hok.1, ?_, ?_, ?_⟩
  · rw [hok.2]
    rfl
  · rw [herr.1]
    rfl
  · rw [herr.2]
    rfl

/-- C10: a chat request with a previously-unknown session id whose
generation fails still creates an empty session: the request errors, the
session map gains the id with an empty turn list, the health endpoint's
session count increases by one, and a history query returns an empty list
rather than not-found. -/
theorem C10_failed_chat_creates_empty_session (sessions : SessionMap)
    (session_id? : Option (List Char)) (freshId message t1 t2 e : List Char)
    (gen : List Turn → Except (List Char) (List Char × List SourceRef))
    (hnew : session_id?.getD freshId ∉ sessions)
    (hfail : gen [] = .error e) :
    ((chat sessions session_id? freshId message gen t1 t2).1 =
        .error ("Error generating response: ".toList ++ e)) ∧
      ((chat sessions session_id? freshId message gen t1 t2).2.lookup
          (session_id?.getD freshId) = some []) ∧
      (active_sessions (chat sessions session_id? freshId message gen t1 t2).2 =
        active_sessions sessions + 1) ∧
      (get_chat_history (chat sessions session_id? freshId message gen t1 t2).2
          (session_id?.getD freshId) = []) := by
  unfold chat
  dsimp only
  rw [if_neg hnew, AList.lookup_insert]
  rw [show (some ([] : List Turn)).getD [] = [] from rfl, hfail]
  refine ⟨rfl, ?_, ?_, ?_⟩
  · exact AList.lookup_insert _
  · unfold active_sessions
    rw [AList.insert_entries_of_neg hnew]
    rfl
  · unfold get_chat_history
    rw [AList.lookup_insert]
    rfl

/-- Witness for `C10_failed_chat_creates_empty_session` on an empty
session map. -/
theorem C10_failed_chat_creates_empty_session_witness :
    (("s1".toList : List Char) ∉ (∅ : SessionMap)) ∧
    ((fun _ : List Turn => (.error ("boom".toList) :
        Except (List Char) (List Char × List SourceRef))) [] =
      .error ("boom".toList)) ∧
    ((chat ∅ none ("s1".toList) ("hi".toList)
        (fun _ => .error ("boom".toList)) ("t1".toList) ("t2".toList)).1 =
      .error ("Error generating response: ".toList ++ "boom".toList)) ∧
    ((chat ∅ none ("s1".toList) ("hi".toList)
        (fun _ => .error ("boom".toList)) ("t1".toList) ("t2".toList)).2.lookup
        ("s1".toList) = some []) ∧
    (active_sessions (chat ∅ none ("s1".toList) ("hi".toList)
        (fun _ => .error ("boom".toList)) ("t1".toList) ("t2".toList)).2 =
      active_sessions (∅ : SessionMap) + 1) ∧
    (get_chat_history (chat ∅ none ("s1".toList) ("hi".toList)
        (fun _ => .error ("boom".toList)) ("t1".toList) ("t2".toList)).2
        ("s1".toList) = []) := by
  have h := C10_failed_chat_creates_empty_session ∅ none ("s1".toList)
    ("hi".toList) ("t1".toList) ("t2".toList) ("boom".toList)
    (fun _ => .error ("boom".toList)) (by simp) rfl
  exact ⟨by simp, rfl, h.1, h.2.1, h.2.2.1, h.2.2.2⟩

/-! ## Upload validation (`main.upload_files`)

```python
if len(files) > 15:
    raise HTTPException(400, "Maximum 15 files allowed")
job_id = str(uuid.uuid4())
file_paths = []
for file in files:
    if not file.filename.endswith('.pdf'):
        raise HTTPException(400, f"Only PDF files allowed: {file.filename}")
    content = await file.read()
    if len(content) > 10 * 1024 * 1024:
        raise HTTPException(400, f"File too large: {file.filename}")
    file_path = os.path.join(UPLOAD_DIR, f"{job_id}_{file.filename}")
    with open(file_path, "wb") as f: f.write(content)
    file_paths.append({...})
job_status[job_id] = {"status": "pending", ...}
background_tasks.add_task(process_documents_task, job_id, file_paths)
```

A raised `HTTPException` unwinds the loop but leaves the files already
written on disk; the state records the saved paths and the job map.  The
file contents matter only through their size.  (The `"files"` list stored
inside the job dictionary is carried in the saved-file records; no claim
concerns it.) -/

/-- An uploaded file: its name and its content size in bytes. -/
structure UploadFile where
  filename : List Char
  size : ℕ
deriving DecidableEq

/-- One entry of `file_paths`. -/
structure FileRec where
  filename : List Char
  path : List Char
  size : ℕ
  upload_time : List Char
deriving DecidableEq

/-- The `status` values of an ingestion job. -/
inductive JobStatus
  | pending
  | processing
  | completed
  | failed
deriving DecidableEq

/-- One `job_status[job_id]` record. -/
structure JobState where
  status : JobStatus
  progress : ℕ
  message : List Char
  files_processed : ℕ
  total_files : ℕ
deriving DecidableEq

/-- The server-side state touched by the upload endpoint: the files
persisted to the upload directory (in write order) and the job map. -/
structure ServerState where
  savedFiles : List (List Char)
  jobs : AList (fun _ : List Char => JobState)

/-- The per-file validation/save loop; an `HTTPException` stops the loop
but keeps the files already written. -/
def saveFiles (job_id now : List Char) :
    List UploadFile → ServerState → List FileRec →
      Except (List Char) (List FileRec) × ServerState
  | [], st, acc => (.ok acc, st)
  | f :: fs, st, acc =>
    if ¬ (".pdf".toList <:+ f.filename) then
      (.error ("Only PDF files allowed: ".toList ++ f.filename), st)
    else if f.size > 10 * 1024 * 1024 then
      (.error ("File too large: ".toList ++ f.filename), st)
    else
      saveFiles job_id now fs
        { st with savedFiles := st.savedFiles ++ [job_id ++ '_' :: f.filename] }
        (acc ++ [{ filename := f.filename
                   path := job_id ++ '_' :: f.filename
                   size := f.size
                   upload_time := now }])

/-- The job record created once every file is validated and saved. -/
def pendingJob (total : ℕ) : JobState :=
  { status := .pending
    progress := 0
    message := "Files uploaded, processing started".toList
    files_processed := 0
    total_files := total }

/-- `upload_files`: count check, then the save loop, then job creation
(the background task itself is `process_documents_task` below). -/
def upload_files (files : List UploadFile) (job_id now : List Char)
    (st : ServerState) :
    Except (List Char) (List Char × ℕ) × ServerState :=
  if files.length > 15 then
    (.error ("Maximum 15 files allowed".toList), st)
  else
    match saveFiles job_id now files st [] with
    | (.error e, st1) => (.error e, st1)
    | (.ok _, st1) =>
      (.ok (job_id, files.length),
        { st1 with jobs := st1.jobs.insert job_id (pendingJob files.length) })

theorem saveFiles_error_jobs (job_id now : List Char) :
    ∀ (fs : List UploadFile) (st : ServerState) (acc : List FileRec)
      (e : List Char) (st1 : ServerState),
      saveFiles job_id now fs st acc = (.error e, st1) → st1.jobs = st.jobs := by
  intro fs
  induction fs with
  | nil =>
    intro st acc e st1 h
    simp [saveFiles] at h
  | cons f fs ih =>
    intro st acc e st1 h
    simp only [saveFiles] at h
    by_cases hpdf : ".pdf".toList <:+ f.filename
    · rw [if_neg (not_not_intro hpdf)] at h
      by_cases hsz : f.size > 10 * 1024 * 1024
      · rw [if_pos hsz] at h
        injection h with _ h3
        rw [← h3]
      · rw [if_neg hsz] at h
        have h4 := ih _ _ e st1 h
        exact h4
    · rw [if_pos hpdf] at h
      injection h with _ h2
      rw [← h2]

/-- C7 (counterexample): a two-file batch whose second file is not a PDF
is rejected, but the first file has already been persisted to disk when
the rejection happens — rejection is not always before any file is
persisted. -/
theorem C7_counterexample :
    ((upload_files
        [{ filename := "a.pdf".toList, size := 10 },
         { filename := "b.txt".toList, size := 10 }]
        ("job".toList) ("now".toList)
        { savedFiles := [], jobs := ∅ }).1 =
      .error ("Only PDF files allowed: b.txt".toList)) ∧
      ((upload_files
          [{ filename := "a.pdf".toList, size := 10 },
           { filename := "b.txt".toList, size := 10 }]
          ("job".toList) ("now".toList)
          { savedFiles := [], jobs := ∅ }).2.savedFiles =
        ["job_a.pdf".toList]) := by
  constructor
  · rfl
  · rfl

/-- C7 (amended): an upload of more than 15 files is rejected before
anything happens — no file is persisted and no job is created, the state
is returned unchanged; every other validation failure (non-PDF or
oversized file) is also rejected before any job is created, but files
earlier in the batch have already been persisted by then. -/
theorem C7_upload_validation (files : List UploadFile) (job_id now : List Char)
    (st : ServerState) :
    (files.length > 15 →
      upload_files files job_id now st =
        (.error ("Maximum 15 files allowed".toList), st)) ∧
    (∀ e st1, upload_files files job_id now st = (.error e, st1) →
      st1.jobs = st.jobs) := by
  constructor
  · intro hlen
    rw [upload_files, if_pos hlen]
  · intro e st1 h
    by_cases hlen : files.length > 15
    · rw [upload_files, if_pos hlen] at h
      injection h with _ h2
      rw [← h2]
    · rw [upload_files, if_neg hlen] at h
      cases hs : saveFiles job_id now files st [] with
      | mk res st2 =>
        cases res with
        | error e2 =>
          rw [hs] at h
          injection h with _ h2
          rw [← h2]
          exact saveFiles_error_jobs job_id now files st [] e2 st2 hs
        | ok recs =>
          rw [hs] at h
          exact absurd h (by simp)

/-- Witness for `C7_upload_validation`: a 16-file batch is rejected with
the state unchanged, and a batch with a non-PDF file is rejected without
creating a job. -/
theorem C7_upload_validation_witness :
    ((List.replicate 16
        ({ filename := "a.pdf".toList, size := 10 } : UploadFile)).length >
      15) ∧
    (upload_files
        (List.replicate 16
          ({ filename := "a.pdf".toList, size := 10 } : UploadFile))
        ("job".toList) ("now".toList) { savedFiles := [], jobs := ∅ } =
      (.error ("Maximum 15 files allowed".toList),
        { savedFiles := [], jobs := ∅ })) ∧
    ((upload_files
        [({ filename := "b.txt".toList, size := 10 } : UploadFile)]
        ("job".toList) ("now".toList)
        { savedFiles := [], jobs := ∅ }).2.jobs =
      (∅ : AList (fun _ : List Char => JobState))) := by
  refine ⟨by decide, ?_, ?_⟩
  · exact (C7_upload_validation _ ("job".toList) ("now".toList) _).1 (by decide)
  · exact (C7_upload_validation
      [({ filename := "b.txt".toList, size := 10 } : UploadFile)]
      ("job".toList) ("now".toList) { savedFiles := [], jobs := ∅ }).2
      ("Only PDF files allowed: b.txt".toList)
      { savedFiles := [], jobs := ∅ } rfl

/-! ## The ingestion background task (`main.process_documents_task`)

```python
try:
    job_status[job_id]["status"] = "processing"
    job_status[job_id]["message"] = "Extracting text from PDFs"
    all_chunks = []
    for idx, file_info in enumerate(file_paths):
        job_status[job_id]["progress"] = int((idx / len(file_paths)) * 50)
        job_status[job_id]["message"] = f"Processing {file_info['filename']}"
        chunks = doc_processor.process_pdf(...)     # may raise
        all_chunks.extend(chunks)
        job_status[job_id]["files_processed"] = idx + 1
    job_status[job_id]["progress"] = 60
    job_status[job_id]["message"] = "Generating embeddings"
    await rag_engine.store_embeddings(all_chunks, job_id)   # may raise
    with open(metadata_path, "w") as f: json.dump({...}, f) # may raise
    job_status[job_id]["status"] = "completed"
    job_status[job_id]["progress"] = 100
    job_status[job_id]["message"] = "Processing completed successfully"
except Exception as e:
    job_status[job_id]["status"] = "failed"
    job_status[job_id]["message"] = f"Error: {str(e)}"
```

The task is modelled as the sequence of job states after every field
mutation.  The fallible external steps — per-file PDF extraction, the
embedding/upsert call, the metadata write — enter as explicit outcomes;
`int((idx / n) * 50)` is modelled as `idx * 50 / n` (Python computes it
through a float, which agrees up to one unit of rounding and is likewise
nondecreasing in `idx`; no claim depends on the exact value). -/

/-- Field updates of the job dictionary, one per Python assignment. -/
def setStatus (x : JobStatus) (st : JobState) : JobState :=
  { st with status := x }

/-- `job_status[job_id]["progress"] = p`. -/
def setProgress (p : ℕ) (st : JobState) : JobState :=
  { st with progress := p }

/-- `job_status[job_id]["message"] = m`. -/
def setMessage (m : List Char) (st : JobState) : JobState :=
  { st with message := m }

/-- `job_status[job_id]["files_processed"] = k`. -/
def setFilesProcessed (k : ℕ) (st : JobState) : JobState :=
  { st with files_processed := k }

/-- The two snapshots of the `except` handler: `status = "failed"`, then
`message = f"Error: {e}"`. -/
def failSnapshots (st : JobState) (e : List Char) : List JobState :=
  [setStatus .failed st,
   setMessage ("Error: ".toList ++ e) (setStatus .failed st)]

/-- The per-file loop: `results` pairs each file name with the outcome of
`process_pdf`.  Returns the state snapshots (one per field assignment),
the error that stopped the loop (if any), and the state reached. -/
def fileLoop (n : ℕ) :
    ℕ → List (List Char × Except (List Char) Unit) → JobState →
      List JobState × Option (List Char) × JobState
  | _, [], st => ([], none, st)
  | idx, r :: rs, st =>
    let st1 := setProgress (idx * 50 / n) st
    let st2 := setMessage ("Processing ".toList ++ r.1) st1
    match r.2 with
    | .error e => ([st1, st2], some e, st2)
    | .ok _ =>
      let st3 := setFilesProcessed (idx + 1) st2
      let rest := fileLoop n (idx + 1) rs st3
      (st1 :: st2 :: st3 :: rest.1, rest.2.1, rest.2.2)

/-- `process_documents_task`: the full snapshot trace of one background
run over a job whose `file_paths` has length `n`. -/
def process_documents_task (n : ℕ)
    (results : List (List Char × Except (List Char) Unit))
    (storeRes metaRes : Except (List Char) Unit) (st0 : JobState) :
    List JobState :=
  let stA := setStatus .processing st0
  let stB := setMessage ("Extracting text from PDFs".toList) stA
  let loop := fileLoop n 0 results stB
  match loop.2.1 with
  | some e => stA :: stB :: (loop.1 ++ failSnapshots loop.2.2 e)
  | none =>
    let stC := setProgress 60 loop.2.2
    let stD := setMessage ("Generating embeddings".toList) stC
    match storeRes with
    | .error e => stA :: stB :: (loop.1 ++ ([stC, stD] ++ failSnapshots stD e))
    | .ok _ =>
      match metaRes with
      | .error e =>
        stA :: stB :: (loop.1 ++ ([stC, stD] ++ failSnapshots stD e))
      | .ok _ =>
        let stE := setStatus .completed stD
        let stF := setProgress 100 stE
        let stG := setMessage
          ("Processing completed successfully".toList) stF
        stA :: stB :: (loop.1 ++ [stC, stD, stE, stF, stG])

/-- The first error a run hits: the first failing file, else the
embedding/upsert step, else the metadata write. -/
def firstErrOf : List (List Char × Except (List Char) Unit) →
    Option (List Char)
  | [] => none
  | r :: rs =>
    match r.2 with
    | .error e => some e
    | .ok _ => firstErrOf rs

/-- The first error of the whole run, if any. -/
def firstError (results : List (List Char × Except (List Char) Unit))
    (storeRes metaRes : Except (List Char) Unit) : Option (List Char) :=
  match firstErrOf results with
  | some e => some e
  | none =>
    match storeRes with
    | .error e => some e
    | .ok _ =>
      match metaRes with
      | .error e => some e
      | .ok _ => none

/-- The progress relation of the monotonicity claim. -/
def progLE (a b : JobState) : Prop := a.progress ≤ b.progress

theorem idx_mul_fifty_div_le (n idx : ℕ) (h : idx ≤ n) :
    idx * 50 / n ≤ 50 := by
  cases n with
  | zero => simp
  | succ m =>
    calc idx * 50 / (m + 1) ≤ 50 * (m + 1) / (m + 1) :=
          Nat.div_le_div_right (by omega)
      _ = 50 := Nat.mul_div_cancel 50 (Nat.succ_pos m)

theorem fileLoop_spec (n : ℕ) :
    ∀ (idx : ℕ) (rs : List (List Char × Except (List Char) Unit))
      (st : JobState), idx + rs.length = n → st.progress ≤ idx * 50 / n →
      List.Chain' progLE (st :: (fileLoop n idx rs st).1) ∧
        (st :: (fileLoop n idx rs st).1).getLast? =
          some (fileLoop n idx rs st).2.2 ∧
        (fileLoop n idx rs st).2.2.status = st.status ∧
        (fileLoop n idx rs st).2.2.progress ≤ 50 ∧
        (fileLoop n idx rs st).2.1 = firstErrOf rs := by
  intro idx rs
  induction rs generalizing idx with
  | nil =>
    intro st hlen hpr
    refine ⟨List.chain'_singleton st, rfl, rfl, ?_, rfl⟩
    exact Nat.le_trans hpr (idx_mul_fifty_div_le n idx (by omega))
  | cons r rs ih =>
    intro st hlen hpr
    cases hr : r.2 with
    | error e =>
      rw [show fileLoop n idx (r :: rs) st =
        ([setProgress (idx * 50 / n) st,
          setMessage ("Processing ".toList ++ r.1)
            (setProgress (idx * 50 / n) st)], some e,
          setMessage ("Processing ".toList ++ r.1)
            (setProgress (idx * 50 / n) st)) from by
        simp only [fileLoop, hr]]
      refine ⟨?_, rfl, rfl, ?_, ?_⟩
      · exact List.chain'_cons.mpr ⟨hpr, List.chain'_cons.mpr
          ⟨Nat.le_refl _, List.chain'_singleton _⟩⟩
      · exact idx_mul_fifty_div_le n idx (by omega)
      · rw [show firstErrOf (r :: rs) = some e from by
          simp only [firstErrOf, hr]]
    | ok u =>
      rw [show fileLoop n idx (r :: rs) st =
        (setProgress (idx * 50 / n) st ::
          setMessage ("Processing ".toList ++ r.1)
            (setProgress (idx * 50 / n) st) ::
          setFilesProcessed (idx + 1)
            (setMessage ("Processing ".toList ++ r.1)
              (setProgress (idx * 50 / n) st)) ::
          (fileLoop n (idx + 1) rs (setFilesProcessed (idx + 1)
            (setMessage ("Processing ".toList ++ r.1)
              (setProgress (idx * 50 / n) st)))).1,
          (fileLoop n (idx + 1) rs (setFilesProcessed (idx + 1)
            (setMessage ("Processing ".toList ++ r.1)
              (setProgress (idx * 50 / n) st)))).2.1,
          (fileLoop n (idx + 1) rs (setFilesProcessed (idx + 1)
            (setMessage ("Processing ".toList ++ r.1)
              (setProgress (idx * 50 / n) st)))).2.2) from by
        simp only [fileLoop, hr]]
      dsimp only
      have hdivle : idx * 50 / n ≤ (idx + 1) * 50 / n :=
        Nat.div_le_div_right (by omega)
      obtain ⟨ihA, ihB, ihC, ihD, ihE⟩ := ih (idx + 1)
        (setFilesProcessed (idx + 1)
          (setMessage ("Processing ".toList ++ r.1)
            (setProgress (idx * 50 / n) st)))
        (by simp at hlen ⊢; omega) hdivle
      refine ⟨?_, ?_, ?_, ihD, ?_⟩
      · exact List.chain'_cons.mpr ⟨hpr, List.chain'_cons.mpr
          ⟨Nat.le_refl _, List.chain'_cons.mpr ⟨Nat.le_refl _, ihA⟩⟩⟩
      · rw [List.getLast?_cons_cons, List.getLast?_cons_cons,
          List.getLast?_cons_cons]
        exact ihB
      · exact ihC
      · rw [show firstErrOf (r :: rs) = firstErrOf rs from by
          simp only [firstErrOf, hr]]
        exact ihE

theorem getLast?_append_pair (l : List JobState) (a b : JobState) :
    (l ++ [a, b]).getLast? = some b := by
  rw [List.getLast?_append]
  rfl

theorem getLast?_append_five (l : List JobState) (a b c d e : JobState) :
    (l ++ [a, b, c, d, e]).getLast? = some e := by
  rw [List.getLast?_append]
  rfl

/-- C9: over one background run, the job moves from `pending` to
`processing` on the first snapshot, progress never decreases along the
whole snapshot trace, the terminal state is `completed` (with progress
100) exactly when every file was chunked, the embeddings were upserted
and the metadata record was written, and on the first error of any of
those steps the terminal state is `failed` with the message
`"Error: {e}"` recording it. -/
theorem C9_job_lifecycle (n : ℕ)
    (results : List (List Char × Except (List Char) Unit))
    (storeRes metaRes : Except (List Char) Unit) (st0 : JobState)
    (hn : results.length = n) (hst : st0.status = .pending)
    (hpr : st0.progress = 0) :
    List.Chain' progLE
      (st0 :: process_documents_task n results storeRes metaRes st0) ∧
      (∀ s, (process_documents_task n results storeRes metaRes st0).head? =
          some s → s.status = .processing) ∧
      (∀ s, (process_documents_task n results storeRes metaRes st0).getLast? =
          some s →
        (firstError results storeRes metaRes = none →
          s.status = .completed ∧ s.progress = 100) ∧
        (∀ e, firstError results storeRes metaRes = some e →
          s.status = .failed ∧ s.message = "Error: ".toList ++ e)) := by
  unfold process_documents_task
  dsimp only
  set stA := setStatus .processing st0 with hstA
  set stB := setMessage ("Extracting text from PDFs".toList) stA with hstB
  set L := fileLoop n 0 results stB with hLdef
  obtain ⟨hA, hB, hC, hD, hE⟩ := fileLoop_spec n 0 results stB
    (by omega)
    (by show stB.progress ≤ 0 * 50 / n
        rw [show stB.progress = st0.progress from rfl, hpr]
        simp)
  rw [← hLdef] at hA hB hC hD hE
  have hchainhead : ∀ tail : List JobState,
      List.Chain' progLE ((stB :: L.1) ++ tail) →
      List.Chain' progLE (st0 :: stA :: stB :: (L.1 ++ tail)) := by
    intro tail htail
    rw [List.cons_append] at htail
    exact List.chain'_cons.mpr ⟨Nat.le_refl _,
      List.chain'_cons.mpr ⟨Nat.le_refl _, htail⟩⟩
  have hglue : ∀ x, (stB :: L.1).getLast? = some x → x = L.2.2 := by
    intro x hx
    rw [hB] at hx
    injection hx with hx
    exact hx.symm
  cases hcase : L.2.1 with
  | some e =>
    have hfe : firstError results storeRes metaRes = some e := by
      unfold firstError
      rw [← hE, hcase]
    refine ⟨?_, ?_, ?_⟩
    · apply hchainhead
      apply List.chain'_append.mpr
      refine ⟨hA, ?_, ?_⟩
      · exact List.chain'_cons.mpr ⟨Nat.le_refl _, List.chain'_singleton _⟩
      · intro x hx y hy
        have hx2 := hglue x hx
        simp only [failSnapshots, List.head?_cons, Option.mem_def,
          Option.some.injEq] at hy
        rw [hx2, ← hy]
        exact Nat.le_refl _
    · intro s hs
      injection hs with hs
      rw [← hs]
      rfl
    · intro s hs
      have hlast : (stA :: stB :: (L.1 ++ failSnapshots L.2.2 e)).getLast? =
          some (setMessage ("Error: ".toList ++ e)
            (setStatus .failed L.2.2)) := by
        rw [show stA :: stB :: (L.1 ++ failSnapshots L.2.2 e) =
          (stA :: stB :: L.1) ++ failSnapshots L.2.2 e from rfl,
          List.getLast?_append]
        rfl
      rw [hlast] at hs
      injection hs with hs
      refine ⟨fun hnone => ?_, fun e2 he2 => ?_⟩
      · rw [hfe] at hnone
        exact absurd hnone (by simp)
      · rw [hfe] at he2
        injection he2 with he2
        rw [← hs, ← he2]
        exact ⟨rfl, rfl⟩
  | none =>
    have hfe0 : firstErrOf results = none := by rw [← hE, hcase]
    cases storeRes with
    | error e =>
      have hfe : firstError results (.error e) metaRes = some e := by
        unfold firstError
        rw [hfe0]
      refine ⟨?_, ?_, ?_⟩
      · apply hchainhead
        apply List.chain'_append.mpr
        refine ⟨hA, ?_, ?_⟩
        · refine List.chain'_cons.mpr ⟨Nat.le_refl _,
            List.chain'_cons.mpr ⟨Nat.le_refl _,
              List.chain'_cons.mpr ⟨Nat.le_refl _,
                List.chain'_singleton _⟩⟩⟩
        · intro x hx y hy
          have hx2 := hglue x hx
          simp only [List.cons_append, List.head?_cons, Option.mem_def,
            Option.some.injEq] at hy
          rw [hx2, ← hy]
          show L.2.2.progress ≤ 60
          omega
      · intro s hs
        injection hs with hs
        rw [← hs]
        rfl
      · intro s hs
        have hlast : (stA :: stB :: (L.1 ++
            ([setProgress 60 L.2.2,
              setMessage ("Generating embeddings".toList)
                (setProgress 60 L.2.2)] ++
              failSnapshots (setMessage ("Generating embeddings".toList)
                (setProgress 60 L.2.2)) e))).getLast? =
            some (setMessage ("Error: ".toList ++ e)
              (setStatus .failed (setMessage ("Generating embeddings".toList)
                (setProgress 60 L.2.2)))) := by
          rw [show stA :: stB :: (L.1 ++
              ([setProgress 60 L.2.2,
                setMessage ("Generating embeddings".toList)
                  (setProgress 60 L.2.2)] ++
                failSnapshots (setMessage ("Generating embeddings".toList)
                  (setProgress 60 L.2.2)) e)) =
            (stA :: stB :: L.1) ++
              ([setProgress 60 L.2.2,
                setMessage ("Generating embeddings".toList)
                  (setProgress 60 L.2.2)] ++
                failSnapshots (setMessage ("Generating embeddings".toList)
                  (setProgress 60 L.2.2)) e) from rfl,
            List.getLast?_append]
          rfl
        rw [hlast] at hs
        injection hs with hs
        refine ⟨fun hnone => ?_, fun e2 he2 => ?_⟩
        · rw [hfe] at hnone
          exact absurd hnone (by simp)
        · rw [hfe] at he2
          injection he2 with he2
          rw [← hs, ← he2]
          exact ⟨rfl, rfl⟩
    | ok u =>
      cases metaRes with
      | error e =>
        have hfe : firstError results (.ok u) (.error e) = some e := by
          unfold firstError
          rw [hfe0]
        refine ⟨?_, ?_, ?_⟩
        · apply hchainhead
          apply List.chain'_append.mpr
          refine ⟨hA, ?_, ?_⟩
          · refine List.chain'_cons.mpr ⟨Nat.le_refl _,
              List.chain'_cons.mpr ⟨Nat.le_refl _,
                List.chain'_cons.mpr ⟨Nat.le_refl _,
                  List.chain'_singleton _⟩⟩⟩
          · intro x hx y hy
            have hx2 := hglue x hx
            simp only [List.cons_append, List.head?_cons, Option.mem_def,
              Option.some.injEq] at hy
            rw [hx2, ← hy]
            show L.2.2.progress ≤ 60
            omega
        · intro s hs
          injection hs with hs
          rw [← hs]
          rfl
        · intro s hs
          have hlast : (stA :: stB :: (L.1 ++
              ([setProgress 60 L.2.2,
                setMessage ("Generating embeddings".toList)
                  (setProgress 60 L.2.2)] ++
                failSnapshots (setMessage ("Generating embeddings".toList)
                  (setProgress 60 L.2.2)) e))).getLast? =
              some (setMessage ("Error: ".toList ++ e)
                (setStatus .failed
                  (setMessage ("Generating embeddings".toList)
                    (setProgress 60 L.2.2)))) := by
            rw [show stA :: stB :: (L.1 ++
                ([setProgress 60 L.2.2,
                  setMessage ("Generating embeddings".toList)
                    (setProgress 60 L.2.2)] ++
                  failSnapshots (setMessage ("Generating embeddings".toList)
                    (setProgress 60 L.2.2)) e)) =
              (stA :: stB :: L.1) ++
                ([setProgress 60 L.2.2,
                  setMessage ("Generating embeddings".toList)
                    (setProgress 60 L.2.2)] ++
                  failSnapshots (setMessage ("Generating embeddings".toList)
                    (setProgress 60 L.2.2)) e) from rfl,
              List.getLast?_append]
            rfl
          rw [hlast] at hs
          injection hs with hs
          refine ⟨fun hnone => ?_, fun e2 he2 => ?_⟩
          · rw [hfe] at hnone
            exact absurd hnone (by simp)
          · rw [hfe] at he2
            injection he2 with he2
            rw [← hs, ← he2]
            exact ⟨rfl, rfl⟩
      | ok v =>
        have hfe : firstError results (.ok u) (.ok v) = none := by
          unfold firstError
          rw [hfe0]
        refine ⟨?_, ?_, ?_⟩
        · apply hchainhead
          apply List.chain'_append.mpr
          refine ⟨hA, ?_, ?_⟩
          · refine List.chain'_cons.mpr ⟨Nat.le_refl _,
              List.chain'_cons.mpr ⟨?_,
                List.chain'_cons.mpr ⟨?_,
                  List.chain'_cons.mpr ⟨Nat.le_refl _,
                    List.chain'_singleton _⟩⟩⟩⟩
            · show (60 : ℕ) ≤ 60
              omega
            · show (60 : ℕ) ≤ 100
              omega
          · intro x hx y hy
            have hx2 := hglue x hx
            simp only [List.head?_cons, Option.mem_def,
              Option.some.injEq] at hy
            rw [hx2, ← hy]
            show L.2.2.progress ≤ 60
            omega
        · intro s hs
          injection hs with hs
          rw [← hs]
          rfl
        · intro s hs
          have hlast : (stA :: stB :: (L.1 ++
              [setProgress 60 L.2.2,
               setMessage ("Generating embeddings".toList)
                 (setProgress 60 L.2.2),
               setStatus .completed (setMessage
                 ("Generating embeddings".toList) (setProgress 60 L.2.2)),
               setProgress 100 (setStatus .completed (setMessage
                 ("Generating embeddings".toList) (setProgress 60 L.2.2))),
               setMessage ("Processing completed successfully".toList)
                 (setProgress 100 (setStatus .completed (setMessage
                   ("Generating embeddings".toList)
                   (setProgress 60 L.2.2))))])).getLast? =
              some (setMessage ("Processing completed successfully".toList)
                (setProgress 100 (setStatus .completed (setMessage
                  ("Generating embeddings".toList)
                  (setProgress 60 L.2.2))))) := by
            rw [show stA :: stB :: (L.1 ++
                [setProgress 60 L.2.2,
                 setMessage ("Generating embeddings".toList)
                   (setProgress 60 L.2.2),
                 setStatus .completed (setMessage
                   ("Generating embeddings".toList) (setProgress 60 L.2.2)),
                 setProgress 100 (setStatus .completed (setMessage
                   ("Generating embeddings".toList)
                   (setProgress 60 L.2.2))),
                 setMessage ("Processing completed successfully".toList)
                   (setProgress 100 (setStatus .completed (setMessage
                     ("Generating embeddings".toList)
                     (setProgress 60 L.2.2))))]) =
              (stA :: stB :: L.1) ++
                [setProgress 60 L.2.2,
                 setMessage ("Generating embeddings".toList)
                   (setProgress 60 L.2.2),
                 setStatus .completed (setMessage
                   ("Generating embeddings".toList) (setProgress 60 L.2.2)),
                 setProgress 100 (setStatus .completed (setMessage
                   ("Generating embeddings".toList)
                   (setProgress 60 L.2.2))),
                 setMessage ("Processing completed successfully".toList)
                   (setProgress 100 (setStatus .completed (setMessage
                     ("Generating embeddings".toList)
                     (setProgress 60 L.2.2))))] from rfl,
              List.getLast?_append]
            rfl
          rw [hlast] at hs
          injection hs with hs
          refine ⟨fun _ => ?_, fun e2 he2 => ?_⟩
          · rw [← hs]
            exact ⟨rfl, rfl⟩
          · rw [hfe] at he2
            exact absurd he2 (by simp)

/-- Witness for `C9_job_lifecycle`: a fully successful one-file run
starting from a freshly created pending job. -/
theorem C9_job_lifecycle_witness :
    List.Chain' progLE
      (pendingJob 1 ::
        process_documents_task 1 [("a.pdf".toList, .ok ())] (.ok ()) (.ok ())
          (pendingJob 1)) ∧
      (∀ s, (process_documents_task 1 [("a.pdf".toList, .ok ())] (.ok ())
          (.ok ()) (pendingJob 1)).head? = some s →
        s.status = .processing) ∧
      (∀ s, (process_documents_task 1 [("a.pdf".toList, .ok ())] (.ok ())
          (.ok ()) (pendingJob 1)).getLast? = some s →
        (firstError [("a.pdf".toList, .ok ())] (.ok ()) (.ok ()) = none →
          s.status = .completed ∧ s.progress = 100) ∧
        (∀ e, firstError [("a.pdf".toList, .ok ())] (.ok ()) (.ok ()) =
            some e →
          s.status = .failed ∧ s.message = "Error: ".toList ++ e)) :=
  C9_job_lifecycle 1 [("a.pdf".toList, .ok ())] (.ok ()) (.ok ())
    (pendingJob 1) rfl rfl rfl

end RagSpec
